import Mathlib

/-!
# Verification development for `getUserTransaction` (src/main.go)

The program fetches a user's paginated transaction history from a JSON endpoint,
keeps the records of one calendar month, averages the month's debit amounts and
returns the ids of the records of the requested type whose amount is above that
average.

The embedding is shallow:

* a Go `string` is a Lean `String`, processed through its list of characters;
* Go `int`, `int32` and `int64` values are `Int`; the one place where the program
  can leave the 64-bit range, `v.Timestamp*1_000_000`, wraps explicitly;
* `float64` is `Float64` below: exact dyadic values with IEEE 754
  round-to-nearest-even, infinities and NaN;
* a panic is a `Fault`; the remote server is a function from the requests issued
  so far and the current request to an optional response, and every function that
  can reach the network threads the list of requests issued so far;
* the `for retriever.hasNext()` loop takes a fuel argument, because a server is
  free to report an ever-growing `total_pages`.
-/

namespace XeHackerRank

/-! ## float64 -/

/-- A `float64` value. `fin m e` is the number `m * 2 ^ e`. The two IEEE zeros are
not told apart: the program only adds, divides by `float64(countDebitTxn)` (never
a negative zero) and compares with `>`, and none of these separates them. -/
inductive Float64 where
  | nan : Float64
  | inf (neg : Bool) : Float64
  | fin (m : Int) (e : Int) : Float64
deriving DecidableEq

/-- Number of binary digits of `n`, by halving; the first argument bounds the
number of halvings and is taken to be `n` itself. -/
def bitLength : Nat → Nat → Nat
  | 0, _ => 0
  | fuel + 1, n => if n = 0 then 0 else bitLength fuel (n / 2) + 1

/-- Decides `2 ^ k ≤ num / den` for an integer `k` and `den > 0`. -/
def geTwoPow (num den : Nat) : Int → Bool
  | Int.ofNat k => decide (den * 2 ^ k ≤ num)
  | Int.negSucc k => decide (den ≤ num * 2 ^ (k + 1))

/-- The integer `e` with `2 ^ e ≤ num / den < 2 ^ (e + 1)`, for `num, den > 0`. -/
def floorLog2 (num den : Nat) : Int :=
  let e0 : Int := (bitLength num num : Int) - (bitLength den den : Int)
  if geTwoPow num den e0 then e0 else e0 - 1

/-- The integer nearest to `n / d`, a tie going to the even neighbour. -/
def roundHalfEven (n d : Nat) : Nat :=
  let q := n / d
  let r := n % d
  if 2 * r < d then q
  else if d < 2 * r then q + 1
  else if q % 2 = 0 then q
  else q + 1

/-- IEEE 754 binary64 rounding (nearest, ties to even) of the exact value
`± num / den`, `den > 0`: 53 significant bits, least exponent `-1074` (subnormals),
overflow to infinity from `2 ^ 1024` on. -/
def round64 (neg : Bool) (num den : Nat) : Float64 :=
  if num = 0 then Float64.fin 0 0
  else
    let p : Int := max (floorLog2 num den) (-1022) - 52
    match p with
    | Int.ofNat k =>
      let m := roundHalfEven num (den * 2 ^ k)
      if 2 ^ 1024 ≤ m * 2 ^ k then Float64.inf neg
      else Float64.fin (if neg then -(m : Int) else (m : Int)) p
    | Int.negSucc k =>
      let m := roundHalfEven (num * 2 ^ (k + 1)) den
      Float64.fin (if neg then -(m : Int) else (m : Int)) p

/-- Rounding of the exact value `s * 2 ^ e`. -/
def roundScaled (s : Int) (e : Int) : Float64 :=
  match e with
  | Int.ofNat k => round64 (decide (s < 0)) (s.natAbs * 2 ^ k) 1
  | Int.negSucc k => round64 (decide (s < 0)) s.natAbs (2 ^ (k + 1))

namespace Float64

/-- The value `0`, the initial value of a `float64` variable. -/
def zero : Float64 := Float64.fin 0 0

/-- Conversion `float64(n)` of an integer. -/
def ofInt (n : Int) : Float64 := round64 (decide (n < 0)) n.natAbs 1

/-- Sum `x + y` of two `float64` values. -/
def add : Float64 → Float64 → Float64
  | nan, _ => nan
  | _, nan => nan
  | inf a, inf b => if a = b then inf a else nan
  | inf a, fin _ _ => inf a
  | fin _ _, inf b => inf b
  | fin m1 e1, fin m2 e2 =>
    let e := min e1 e2
    roundScaled (m1 * 2 ^ (e1 - e).toNat + m2 * 2 ^ (e2 - e).toNat) e

/-- Quotient `x / y` of two `float64` values; a zero divisor is the positive zero. -/
def div : Float64 → Float64 → Float64
  | nan, _ => nan
  | _, nan => nan
  | inf _, inf _ => nan
  | inf a, fin m _ => inf (a != decide (m < 0))
  | fin _ _, inf _ => fin 0 0
  | fin m1 e1, fin m2 e2 =>
    if m2 = 0 then (if m1 = 0 then nan else inf (decide (m1 < 0)))
    else
      round64 (decide (m1 < 0) != decide (m2 < 0))
        (m1.natAbs * 2 ^ (e1 - e2).toNat) (m2.natAbs * 2 ^ (e2 - e1).toNat)

/-- Comparison `x > y`; false as soon as one side is NaN. -/
def gt : Float64 → Float64 → Bool
  | nan, _ => false
  | _, nan => false
  | inf a, inf b => !a && b
  | inf a, fin _ _ => !a
  | fin _ _, inf b => b
  | fin m1 e1, fin m2 e2 =>
    let e := min e1 e2
    decide (m2 * 2 ^ (e2 - e).toNat < m1 * 2 ^ (e1 - e).toNat)

/-- Comparison `x == y` of two `float64` values; NaN equals nothing. -/
def eq : Float64 → Float64 → Bool
  | nan, _ => false
  | _, nan => false
  | inf a, inf b => a == b
  | inf _, fin _ _ => false
  | fin _ _, inf _ => false
  | fin m1 e1, fin m2 e2 =>
    let e := min e1 e2
    decide (m2 * 2 ^ (e2 - e).toNat = m1 * 2 ^ (e1 - e).toNat)

end Float64

/-! ## strings and strconv -/

/-- Whether `c` is one of the bytes `'0'` to `'9'`. -/
def isDigit (c : Char) : Bool := decide (48 ≤ c.toNat) && decide (c.toNat ≤ 57)

/-- Whether `c` is a hexadecimal letter, `'a'` to `'f'` or `'A'` to `'F'`. -/
def isHexLetter (c : Char) : Bool :=
  (decide (97 ≤ c.toNat) && decide (c.toNat ≤ 102)) ||
    (decide (65 ≤ c.toNat) && decide (c.toNat ≤ 70))

/-- Value of a decimal or hexadecimal digit. -/
def digitValue (c : Char) : Nat :=
  if isDigit c then c.toNat - 48
  else if decide (97 ≤ c.toNat) then c.toNat - 87
  else c.toNat - 55

/-- Lower-casing of the ASCII letters only, as strconv does when it compares
with `"infinity"` and `"nan"`. -/
def lowerASCII (c : Char) : Char :=
  if decide (65 ≤ c.toNat) && decide (c.toNat ≤ 90) then Char.ofNat (c.toNat + 32) else c

/-- The number written by a list of decimal digits. -/
def decimalValue (ds : List Char) : Nat :=
  ds.foldl (fun n c => n * 10 + digitValue c) 0

/-- The fields of `strings.Split(s, "-")` after the first, given the characters
still to read and the field being read, in reverse. -/
def splitDashAux : List Char → List Char → List String
  | [], cur => [String.mk cur.reverse]
  | c :: cs, cur =>
    if c = '-' then String.mk cur.reverse :: splitDashAux cs []
    else splitDashAux cs (c :: cur)

/-- The call `strings.Split(s, "-")`: the fields between the dashes, never an
empty list. -/
def splitDash (s : String) : List String := splitDashAux s.data []

/-- The call `strconv.Atoi(s)` on a platform with 64-bit `int`: an optional sign,
then one or more decimal digits, the value within the `int64` range. -/
def atoi (s : String) : Option Int :=
  let signed : Bool × List Char :=
    match s.data with
    | '-' :: r => (true, r)
    | '+' :: r => (false, r)
    | r => (false, r)
  let ds := signed.2
  if ds.isEmpty || !ds.all isDigit then none
  else
    let n := decimalValue ds
    if signed.1 then (if n ≤ 2 ^ 63 then some (-(n : Int)) else none)
    else (if n < 2 ^ 63 then some (n : Int) else none)

/-- The helper `special` of strconv together with the requirement of
`ParseFloat` that the whole string is consumed: `"inf"` and `"infinity"` with an
optional sign, and `"nan"` without one, whatever the case of the letters. -/
def parseSpecial (s : List Char) : Option Float64 :=
  let isInf (r : List Char) : Bool :=
    r.map lowerASCII = "inf".data || r.map lowerASCII = "infinity".data
  match s with
  | '+' :: r => if isInf r then some (Float64.inf false) else none
  | '-' :: r => if isInf r then some (Float64.inf true) else none
  | r =>
    if isInf r then some (Float64.inf false)
    else if r.map lowerASCII = "nan".data then some Float64.nan
    else none

/-- What the mantissa loop of `readFloat` has seen so far. -/
structure Mantissa where
  sawdot : Bool := false
  sawdigits : Bool := false
  underscores : Bool := false
  /-- The digits read so far, as one integer. -/
  value : Nat := 0
  /-- How many of these digits stand after the point. -/
  fraction : Nat := 0

/-- The mantissa loop of `readFloat`: digits (hexadecimal ones when `hex`), at
most one point, underscores; returns what it has seen and the unread rest. -/
def readMantissa (hex : Bool) : List Char → Mantissa → Mantissa × List Char
  | [], st => (st, [])
  | c :: cs, st =>
    if c = '_' then readMantissa hex cs { st with underscores := true }
    else if c = '.' then
      if st.sawdot then (st, c :: cs)
      else readMantissa hex cs { st with sawdot := true }
    else if isDigit c || (hex && isHexLetter c) then
      readMantissa hex cs
        { st with
          sawdigits := true
          value := st.value * (if hex then 16 else 10) + digitValue c
          fraction := if st.sawdot then st.fraction + 1 else st.fraction }
    else (st, c :: cs)

/-- The exponent digits of `readFloat`: digits and underscores, the value no
longer growing once it has reached 10000; returns the value, whether an
underscore was seen, and the unread rest. -/
def readExponent : List Char → Nat → Bool → Nat × Bool × List Char
  | [], e, us => (e, us, [])
  | c :: cs, e, us =>
    if c = '_' then readExponent cs e true
    else if isDigit c then
      readExponent cs (if e < 10000 then e * 10 + digitValue c else e) us
    else (e, us, c :: cs)

/-- The scan of `underscoreOK` over the number proper; `saw` is the kind of the
last character: `'0'` a digit or base prefix, `'_'` an underscore, `'!'` another
character, `'^'` the start. -/
def underscoreScan (hex : Bool) : List Char → Char → Bool
  | [], saw => saw != '_'
  | c :: cs, saw =>
    if isDigit c || (hex && isHexLetter c) then underscoreScan hex cs '0'
    else if c = '_' then (if saw != '0' then false else underscoreScan hex cs '_')
    else if saw = '_' then false
    else underscoreScan hex cs '!'

/-- The helper `underscoreOK` of strconv: every underscore stands between two
digits, or between a base prefix and a digit. -/
def underscoreOK (s : List Char) : Bool :=
  let body : List Char :=
    match s with
    | '-' :: r => r
    | '+' :: r => r
    | r => r
  match body with
  | '0' :: c :: r =>
    if lowerASCII c = 'b' || lowerASCII c = 'o' || lowerASCII c = 'x' then
      underscoreScan (lowerASCII c = 'x') r '0'
    else underscoreScan false body '^'
  | _ => underscoreScan false body '^'

/-- The exact value `± value * base ^ (-fraction) * expBase ^ (± e)` read by
`readFloat`, rounded; an overflow is the range error of `ParseFloat`. -/
def floatOfParts (neg hex : Bool) (m : Mantissa) (eneg : Bool) (e : Nat) : Option Float64 :=
  let down : Nat := (if hex then 16 else 10) ^ m.fraction
  let scale : Nat := (if hex then 2 else 10) ^ e
  let r : Float64 :=
    if eneg then round64 neg m.value (down * scale)
    else round64 neg (m.value * scale) down
  match r with
  | Float64.fin a b => some (Float64.fin a b)
  | _ => none

/-- The number syntax of `ParseFloat`, after the special values: an optional
sign, an optional `0x` prefix, a mantissa with at least one digit, an exponent
(`e` for decimal, `p` and compulsory for hexadecimal), nothing left over, and
well-placed underscores. -/
def parseNumber (s : List Char) : Option Float64 :=
  let signed : Bool × List Char :=
    match s with
    | '+' :: r => (false, r)
    | '-' :: r => (true, r)
    | r => (false, r)
  let based : Bool × List Char :=
    match signed.2 with
    | '0' :: x :: c :: r => if lowerASCII x = 'x' then (true, c :: r) else (false, signed.2)
    | r => (false, r)
  let hex := based.1
  let mant := readMantissa hex based.2 {}
  let m := mant.1
  if !m.sawdigits then none
  else
    match mant.2 with
    | [] =>
      if hex then none
      else if m.underscores && !underscoreOK s then none
      else floatOfParts signed.1 hex m false 0
    | c :: rest =>
      if lowerASCII c = (if hex then 'p' else 'e') then
        let esigned : Bool × List Char :=
          match rest with
          | '+' :: r => (false, r)
          | '-' :: r => (true, r)
          | r => (false, r)
        match esigned.2 with
        | [] => none
        | d :: ds =>
          if !isDigit d then none
          else
            let ex := readExponent (d :: ds) 0 false
            if !ex.2.2.isEmpty then none
            else if (m.underscores || ex.2.1) && !underscoreOK s then none
            else floatOfParts signed.1 hex m esigned.1 ex.1
      else none

/-- The call `strconv.ParseFloat(s, 64)`; `none` is a non-nil error (syntax or
range). A correctly rounded conversion, as the library documents. -/
def parseFloat (s : List Char) : Option Float64 :=
  match parseSpecial s with
  | some f => some f
  | none => parseNumber s

/-! ## time -/

/-- Wrap-around of a product or sum computed in `int64`. -/
def wrapInt64 (x : Int) : Int := (x + 2 ^ 63) % 2 ^ 64 - 2 ^ 63

/-- Year and month (1 to 12) of the day `days` days after 1970-01-01 in the
proleptic Gregorian calendar, which is the calendar of `time.Time`. Irreducible, so
that elaboration never unfolds the calendar arithmetic on a symbolic date. -/
@[irreducible]
def civilYearMonth (days : Int) : Int × Int :=
  let z := days + 719468
  let era := z / 146097
  let doe := z - era * 146097
  let yoe := (doe - doe / 1460 + doe / 36524 - doe / 146096) / 365
  let doy := doe - (365 * yoe + yoe / 4 - yoe / 100)
  let mp := (5 * doy + 2) / 153
  let m := if mp < 10 then mp + 3 else mp - 9
  let y := yoe + era * 400
  (if m ≤ 2 then y + 1 else y, m)

/-! ## the host and the server -/

/-- What the program takes from the machine it runs on rather than from its
source: the Unicode lower-casing tables behind `strings.ToLower`, and the zone
`time.Local` behind `Time.Month` and `Time.Year`, given as the offset in seconds
east of UTC in force at a Unix time in seconds. -/
structure Host where
  toLower : String → String
  zoneOffset : Int → Int

/-- A host in the UTC zone whose lower-casing touches the ASCII letters only,
which is what `strings.ToLower` does on ASCII text. -/
def utcHost : Host where
  toLower := fun s => String.mk (s.data.map lowerASCII)
  zoneOffset := fun _ => 0

/-- The constant `credit`. -/
def credit : String := "credit"

/-- The constant `debit`. -/
def debit : String := "debit"

/-- The struct `UserTransactionLocationDataResponse`. -/
structure UserTransactionLocationDataResponse where
  Id : Int := 0
  Address : String := ""
  City : String := ""
  ZipCode : Int := 0
deriving DecidableEq

/-- The struct `UserTransactionDataResponse`: one transaction record. -/
structure UserTransactionDataResponse where
  Id : Int := 0
  UserId : Int := 0
  UserName : String := ""
  Timestamp : Int := 0
  TxnType : String := ""
  Amount : String := ""
  Location : UserTransactionLocationDataResponse := {}
deriving DecidableEq

/-- The struct `UserTransactionResponse`: one page of records. -/
structure UserTransactionResponse where
  Page : Int := 0
  PerPage : Int := 0
  Total : Int := 0
  TotalPages : Int := 0
  Data : List UserTransactionDataResponse := []
deriving DecidableEq

/-- The ways the program panics. -/
inductive Fault where
  /-- The explicit `panic("Invalid txnType: " + txnType)`. -/
  | invalidTxnType (txnType : String)
  /-- An index or a slice bound out of range. -/
  | outOfRange
  /-- The error of `strconv.Atoi`, through `checkError`. -/
  | atoiError (s : String)
  /-- The error of `strconv.ParseFloat`, through `checkError`. -/
  | parseFloatError (s : String)
  /-- The error of `http.Get`, `ioutil.ReadAll` or `json.Unmarshal`, through `checkError`. -/
  | requestError
  /-- A nil pointer dereference. -/
  | nilDereference
deriving DecidableEq

/-- How a call ends: it returns a value, it panics, or the model ran out of fuel
inside the page loop. -/
inductive Outcome (α : Type) where
  | returned (a : α) : Outcome α
  | panicked (f : Fault) : Outcome α
  | outOfFuel : Outcome α
deriving DecidableEq

/-- A request `GET endpoint + uid [+ "&page=" + page]`. -/
structure Request where
  uid : Int
  page : Option Int
deriving DecidableEq

/-- The remote server: given the requests issued before and the current one, the
decoded body, or `none` when the transport or the decoding fails. -/
abbrev Server := List Request → Request → Option UserTransactionResponse

/-- The struct `userTransactionRetriever`; `cache` is a pointer, `none` being nil. -/
structure userTransactionRetriever where
  apiEndpoint : String
  uid : Int
  txnType : String
  monthYear : String
  curPage : Int
  cache : Option UserTransactionResponse
deriving DecidableEq

/-- The constant `endpoint`. -/
def endpoint : String := "https://jsonmock.hackerrank.com/api/transactions/search?userId="

/-! ## the retriever -/

/-- The method `getRequest`: issues one request, recorded in the list of requests
whether or not it succeeds, and panics through `checkError` when it fails. -/
def getRequest (srv : Server) (log : List Request) (u : userTransactionRetriever)
    (page : Option Int) : List Request × Except Fault UserTransactionResponse :=
  let req : Request := { uid := u.uid, page := page }
  match srv log req with
  | none => (log ++ [req], Except.error Fault.requestError)
  | some r => (log ++ [req], Except.ok r)

/-- The function `initializeUserTransactionRetriever`. -/
def initializeUserTransactionRetriever (srv : Server) (log : List Request)
    (apiEndpoint : String) (uid : Int) (txnType : String) (monthYear : String) :
    List Request × Except Fault userTransactionRetriever :=
  let u : userTransactionRetriever :=
    { apiEndpoint := apiEndpoint, uid := uid, txnType := txnType, monthYear := monthYear,
      curPage := 0, cache := none }
  match getRequest srv log u none with
  | (log1, Except.error e) => (log1, Except.error e)
  | (log1, Except.ok r) => (log1, Except.ok { u with cache := some r })

/-- The method `hasNext`. -/
def hasNext (u : userTransactionRetriever) : Bool :=
  match u.cache with
  | none => false
  | some c => decide (u.curPage < c.TotalPages)

/-- The method `getNext`: the returned pointer (`none` being nil) and the
retriever after the call. The increment cannot overflow: it runs only when
`curPage < cache.TotalPages`, and `TotalPages` is an `int`. -/
def getNext (srv : Server) (log : List Request) (u : userTransactionRetriever) :
    List Request × Except Fault (Option UserTransactionResponse × userTransactionRetriever) :=
  if !hasNext u then (log, Except.ok (none, u))
  else
    let u1 : userTransactionRetriever := { u with curPage := u.curPage + 1 }
    match u1.cache with
    | none => (log, Except.error Fault.nilDereference)
    | some c =>
      if u1.curPage ≠ c.Page then
        match getRequest srv log u1 (some u1.curPage) with
        | (log1, Except.error e) => (log1, Except.error e)
        | (log1, Except.ok r) => (log1, Except.ok (some r, { u1 with cache := some r }))
      else (log, Except.ok (some c, u1))

/-- The loop `for retriever.hasNext() { response := retriever.getNext(); ... }`
with the loop body as a parameter: `body` updates the loop variables from the
page or panics. At most `fuel` iterations are run. -/
def forEachPage {σ : Type} (srv : Server)
    (body : σ → UserTransactionResponse → Except Fault σ) :
    Nat → List Request → userTransactionRetriever → σ →
      List Request × Outcome (σ × userTransactionRetriever)
  | 0, log, u, s =>
    if !hasNext u then (log, Outcome.returned (s, u)) else (log, Outcome.outOfFuel)
  | fuel1 + 1, log, u, s =>
    if !hasNext u then (log, Outcome.returned (s, u))
    else
      match getNext srv log u with
      | (log1, Except.error e) => (log1, Outcome.panicked e)
      | (log1, Except.ok (none, _)) => (log1, Outcome.panicked Fault.nilDereference)
      | (log1, Except.ok (some response, u1)) =>
        match body s response with
        | Except.error e => (log1, Outcome.panicked e)
        | Except.ok s1 => forEachPage srv body fuel1 log1 u1 s1

/-! ## the analysis -/

/-- The function `convertAmountToFloat`. The slice `amount[1:]` drops one byte:
it panics on the empty string, and after a first character of several bytes it
leaves a string that starts inside that character, which `ParseFloat` rejects. -/
def convertAmountToFloat (amount : String) : Except Fault Float64 :=
  match amount.data.filter (fun c => c ≠ ',') with
  | [] => Except.error Fault.outOfRange
  | c :: rest =>
    if c.toNat < 128 then
      match parseFloat rest with
      | some f => Except.ok f
      | none => Except.error (Fault.parseFloatError (String.mk rest))
    else Except.error (Fault.parseFloatError (String.mk rest))

/-- The function `convertMonthYearToInt`. -/
def convertMonthYearToInt (monthYear : String) : Except Fault (Int × Int) :=
  match splitDash monthYear with
  | [] => Except.error Fault.outOfRange
  | s0 :: rest =>
    match atoi s0 with
    | none => Except.error (Fault.atoiError s0)
    | some requestedTimeMonth =>
      match rest with
      | [] => Except.error Fault.outOfRange
      | s1 :: _ =>
        match atoi s1 with
        | none => Except.error (Fault.atoiError s1)
        | some requestedTimeYear => Except.ok (requestedTimeMonth, requestedTimeYear)

/-- Year and month of `time.Unix(0, timestamp*1_000_000)` as `Year()` and
`Month()` give them: the product wraps in `int64`, the seconds are the floor of
the nanoseconds over `1e9`, and the date is read in the zone of the host. -/
def transactionYearMonth (host : Host) (timestamp : Int) : Int × Int :=
  let nsec := wrapInt64 (timestamp * 1000000)
  let sec := nsec / 1000000000
  civilYearMonth ((sec + host.zoneOffset sec) / 86400)

/-- The test `transactionTime.Month() == time.Month(requestedTimeMonth) &&
transactionTime.Year() == requestedTimeYear`. -/
def inRequestedMonth (host : Host) (requestedTimeMonth requestedTimeYear : Int)
    (v : UserTransactionDataResponse) : Bool :=
  let ym := transactionYearMonth host v.Timestamp
  decide (ym.2 = requestedTimeMonth) && decide (ym.1 = requestedTimeYear)

/-- The variables of `getUserTransaction` that the page loop updates. -/
structure Tally where
  countDebitTxn : Int := 0
  sumDebitTxn : Float64 := Float64.zero
  requestedTransactions : List UserTransactionDataResponse := []
deriving DecidableEq

/-- The body of the inner loop `for _, v := range response.Data`, for one record. -/
def tallyRecord (host : Host) (txnType : String) (requestedTimeMonth requestedTimeYear : Int)
    (t : Tally) (v : UserTransactionDataResponse) : Except Fault Tally :=
  if inRequestedMonth host requestedTimeMonth requestedTimeYear v then
    let step1 : Except Fault Tally :=
      if host.toLower v.TxnType = debit then
        match convertAmountToFloat v.Amount with
        | Except.error e => Except.error e
        | Except.ok a =>
          Except.ok { t with countDebitTxn := t.countDebitTxn + 1,
                             sumDebitTxn := Float64.add t.sumDebitTxn a }
      else Except.ok t
    match step1 with
    | Except.error e => Except.error e
    | Except.ok t1 =>
      if host.toLower v.TxnType = txnType then
        Except.ok { t1 with requestedTransactions := t1.requestedTransactions ++ [v] }
      else Except.ok t1
  else Except.ok t

/-- The inner loop over the records of a page, in order, stopping at a panic. -/
def tallyRecords (host : Host) (txnType : String) (requestedTimeMonth requestedTimeYear : Int) :
    Tally → List UserTransactionDataResponse → Except Fault Tally
  | t, [] => Except.ok t
  | t, v :: vs =>
    match tallyRecord host txnType requestedTimeMonth requestedTimeYear t v with
    | Except.error e => Except.error e
    | Except.ok t1 => tallyRecords host txnType requestedTimeMonth requestedTimeYear t1 vs

/-- The loop `for _, v := range requestedTransactions` that builds `answers`. -/
def selectAnswers (average : Float64) :
    List UserTransactionDataResponse → List Int → Except Fault (List Int)
  | [], answers => Except.ok answers
  | v :: vs, answers =>
    match convertAmountToFloat v.Amount with
    | Except.error e => Except.error e
    | Except.ok a =>
      if Float64.gt a average then selectAnswers average vs (answers ++ [v.Id])
      else selectAnswers average vs answers

/-- The end of `getUserTransaction`, from `average := ...` on. -/
def finish (t : Tally) : Outcome (List Int) :=
  let average := Float64.div t.sumDebitTxn (Float64.ofInt t.countDebitTxn)
  if t.requestedTransactions.length = 0 then Outcome.returned [-1]
  else
    match selectAnswers average t.requestedTransactions [] with
    | Except.error e => Outcome.panicked e
    | Except.ok answers =>
      if answers.length = 0 then Outcome.returned [-1]
      else Outcome.returned answers

/-- The function `getUserTransaction`: the requests it issued, in order, and how
it ended. `fuel` bounds the iterations of the page loop. -/
def getUserTransaction (host : Host) (srv : Server) (fuel : Nat)
    (uid : Int) (txnType : String) (monthYear : String) :
    List Request × Outcome (List Int) :=
  let txnType := host.toLower txnType
  if txnType ≠ credit ∧ txnType ≠ debit then
    ([], Outcome.panicked (Fault.invalidTxnType txnType))
  else
    match convertMonthYearToInt monthYear with
    | Except.error e => ([], Outcome.panicked e)
    | Except.ok (requestedTimeMonth, requestedTimeYear) =>
      match initializeUserTransactionRetriever srv [] endpoint uid txnType monthYear with
      | (log0, Except.error e) => (log0, Outcome.panicked e)
      | (log0, Except.ok retriever) =>
        match forEachPage srv
            (fun t response =>
              tallyRecords host txnType requestedTimeMonth requestedTimeYear t response.Data)
            fuel log0 retriever {} with
        | (log1, Outcome.panicked e) => (log1, Outcome.panicked e)
        | (log1, Outcome.outOfFuel) => (log1, Outcome.outOfFuel)
        | (log1, Outcome.returned (t, _)) => (log1, finish t)

/-! ## drivers and reference definitions used by the statements -/

/-- Calling `getNext` on the retriever until `hasNext` is false, keeping every
page it returns, in order. -/
def drain (srv : Server) (fuel : Nat) (log : List Request) (u : userTransactionRetriever) :
    List Request × Outcome (List UserTransactionResponse × userTransactionRetriever) :=
  forEachPage srv (fun acc response => Except.ok (acc ++ [response])) fuel log u []

/-- The retriever after `n` further calls of `getNext`, with the requests issued. -/
def getNextTimes (srv : Server) :
    Nat → List Request → userTransactionRetriever →
      List Request × Except Fault userTransactionRetriever
  | 0, log, u => (log, Except.ok u)
  | n + 1, log, u =>
    match getNext srv log u with
    | (log1, Except.error e) => (log1, Except.error e)
    | (log1, Except.ok (_, u1)) => getNextTimes srv n log1 u1

/-- The retriever reached by `initializeUserTransactionRetriever` followed by `n`
calls of `getNext`. -/
def cursorAfter (srv : Server) (uid : Int) (txnType monthYear : String) (n : Nat) :
    List Request × Except Fault userTransactionRetriever :=
  match initializeUserTransactionRetriever srv [] endpoint uid txnType monthYear with
  | (log0, Except.error e) => (log0, Except.error e)
  | (log0, Except.ok u) => getNextTimes srv n log0 u

/-- The pages of a list number themselves `k`, `k + 1`, ... in their `page` field
and all report `total_pages = total`. -/
def numbered (total : Int) : Int → List UserTransactionResponse → Bool
  | _, [] => true
  | k, r :: rs => decide (r.Page = k) && decide (r.TotalPages = total) && numbered total (k + 1) rs

/-- The server serves `pages` to user `uid`: whatever was requested before, the
request without a page parameter is answered with the first page and the request
for page `n` with the `n`-th; the `n`-th page reports `page = n` and every page
reports `total_pages = pages.length`, which is at least 1. -/
structure ServesPages (srv : Server) (uid : Int) (pages : List UserTransactionResponse) :
    Prop where
  nonempty : pages ≠ []
  reports : numbered (pages.length : Int) 1 pages = true
  first : ∀ log : List Request, srv log { uid := uid, page := none } = pages.head?
  nth : ∀ (log : List Request) (i : Nat), i < pages.length →
    srv log { uid := uid, page := some ((i : Int) + 1) } = pages[i]?

/-- A server that serves `pages` to every user and fails on any other request. -/
def pagedServer (pages : List UserTransactionResponse) : Server :=
  fun _ req =>
    match req.page with
    | none => pages.head?
    | some n => if 1 ≤ n then pages[(n - 1).toNat]? else none

/-- The requests for the pages `k`, `k + 1`, ..., `k + n - 1`, in this order. -/
def requestsFor (uid : Int) : Int → Nat → List Request
  | _, 0 => []
  | k, n + 1 => { uid := uid, page := some k } :: requestsFor uid (k + 1) n

/-- The loop body applied to a list of pages in order, stopping at a panic. -/
def foldPages {σ : Type} (body : σ → UserTransactionResponse → Except Fault σ) :
    σ → List UserTransactionResponse → Except Fault σ
  | s, [] => Except.ok s
  | s, r :: rs =>
    match body s r with
    | Except.error e => Except.error e
    | Except.ok s1 => foldPages body s1 rs

/-- The records of a list of pages, page after page, each page in its own order. -/
def allRecords (pages : List UserTransactionResponse) : List UserTransactionDataResponse :=
  (pages.map (fun r => r.Data)).flatten

/-- What `getUserTransaction` computes from the records once they are all at
hand, for a lower-cased type and a parsed month and year. -/
def analyze (host : Host) (txnType : String) (requestedTimeMonth requestedTimeYear : Int)
    (records : List UserTransactionDataResponse) : Outcome (List Int) :=
  match tallyRecords host txnType requestedTimeMonth requestedTimeYear {} records with
  | Except.error e => Outcome.panicked e
  | Except.ok t => finish t

/-- Whether `convertAmountToFloat` returns on this amount. -/
def amountParses (amount : String) : Bool :=
  match convertAmountToFloat amount with
  | Except.ok _ => true
  | Except.error _ => false

/-- The parsed amount of a record; NaN stands for an amount that does not parse,
so that such a record compares greater than nothing. -/
def amountOf (v : UserTransactionDataResponse) : Float64 :=
  match convertAmountToFloat v.Amount with
  | Except.ok a => a
  | Except.error _ => Float64.nan

/-- The records of the requested month and year whose type is, case-insensitively,
`txnType` (already in lower case). -/
def monthRecordsOfType (host : Host) (txnType : String) (month year : Int)
    (records : List UserTransactionDataResponse) : List UserTransactionDataResponse :=
  records.filter (fun v =>
    inRequestedMonth host month year v && decide (host.toLower v.TxnType = txnType))

/-- The sum of the amounts of a list of records, added in order from zero. -/
def sumAmounts (records : List UserTransactionDataResponse) : Float64 :=
  records.foldl (fun s v => Float64.add s (amountOf v)) Float64.zero

/-- The average of the claims: the sum of the amounts of the month's debit records
over their number. -/
def debitAverage (host : Host) (month year : Int)
    (records : List UserTransactionDataResponse) : Float64 :=
  Float64.div (sumAmounts (monthRecordsOfType host debit month year records))
    (Float64.ofInt ((monthRecordsOfType host debit month year records).length : Int))

/-- The records of the requested month, year and type whose amount is strictly
greater than the average of the month's debit amounts, in their order. -/
def aboveAverage (host : Host) (txnType : String) (month year : Int)
    (records : List UserTransactionDataResponse) : List UserTransactionDataResponse :=
  (monthRecordsOfType host txnType month year records).filter (fun v =>
    Float64.gt (amountOf v) (debitAverage host month year records))

/-- The records of the requested month, year and type whose amount is strictly
greater than `threshold`, in their order. -/
def aboveThreshold (host : Host) (txnType : String) (month year : Int) (threshold : Float64)
    (records : List UserTransactionDataResponse) : List UserTransactionDataResponse :=
  (monthRecordsOfType host txnType month year records).filter (fun v =>
    Float64.gt (amountOf v) threshold)

/-- The list returned for the selected records: their ids, or `[-1]` when no record
is selected. -/
def idsOrMinusOne (selected : List UserTransactionDataResponse) : List Int :=
  if selected = [] then [-1] else selected.map (fun v => v.Id)

/-- Every record of the requested month and of type `txnType` (in lower case) has
an amount that `convertAmountToFloat` accepts. -/
def AmountsParse (host : Host) (txnType : String) (month year : Int)
    (records : List UserTransactionDataResponse) : Prop :=
  ∀ v ∈ monthRecordsOfType host txnType month year records, amountParses v.Amount = true

/-! ## sample data -/

/-- A record with the fields the analysis reads. -/
def sampleRecord (id timestamp : Int) (txnType amount : String) : UserTransactionDataResponse :=
  { Id := id, Timestamp := timestamp, TxnType := txnType, Amount := amount }

/-- The only page of a one-page dataset. -/
def singlePage (records : List UserTransactionDataResponse) : UserTransactionResponse :=
  { Page := 1, PerPage := 10, Total := records.length, TotalPages := 1, Data := records }

/-- Three debits of March 2018 (2 March and 25 March 2018, UTC) of 10, 20 and 30
dollars, on one page. -/
def marchDebits : List UserTransactionResponse :=
  [singlePage
    [sampleRecord 1 1520000000000 "debit" "$10.00",
     sampleRecord 2 1520000000000 "debit" "$20.00",
     sampleRecord 3 1522000000000 "debit" "$30.00"]]

/-- A debit of 10 dollars and two credits of March 2018, the second credit with an
amount that is not a number. -/
def marchBadCredit : List UserTransactionResponse :=
  [singlePage
    [sampleRecord 1 1520000000000 "credit" "$100.00",
     sampleRecord 2 1520000000000 "credit" "n/a",
     sampleRecord 3 1522000000000 "debit" "$10.00"]]

/-- A single debit of March 2018 whose amount is not a number, and no credit. -/
def marchBadDebit : List UserTransactionResponse :=
  [singlePage [sampleRecord 7 1520000000000 "debit" "N/A"]]

/-- Credits only in March 2018, one of them with an amount that is not a number. -/
def marchCreditsOnlyBad : List UserTransactionResponse :=
  [singlePage
    [sampleRecord 4 1520000000000 "credit" "$5.00",
     sampleRecord 5 1522000000000 "credit" "unknown"]]

/-- Credits only in March 2018, among them an infinite amount, and a debit of
February 2018. -/
def marchCreditsOnly : List UserTransactionResponse :=
  [singlePage
    [sampleRecord 4 1520000000000 "credit" "$5.00",
     sampleRecord 5 1522000000000 "Credit" "$Inf",
     sampleRecord 6 1518000000000 "debit" "$1.00"]]

/-- A debit of 10 dollars and credits of 100 and 50 dollars in March 2018. -/
def marchMixed : List UserTransactionResponse :=
  [singlePage
    [sampleRecord 1 1520000000000 "debit" "$10.00",
     sampleRecord 2 1520000000000 "credit" "$100.00",
     sampleRecord 3 1522000000000 "credit" "$5.00"]]

/-- The dataset `marchMixed` with the amount of the second credit replaced by a
text that is not a number. -/
def marchMixedBad : List UserTransactionResponse :=
  [singlePage
    [sampleRecord 1 1520000000000 "debit" "$10.00",
     sampleRecord 2 1520000000000 "credit" "$100.00",
     sampleRecord 3 1522000000000 "credit" "five"]]

/-- The dataset `marchMixed` with the amount of the second credit raised to 500
dollars. -/
def marchMixedRaised : List UserTransactionResponse :=
  [singlePage
    [sampleRecord 1 1520000000000 "debit" "$10.00",
     sampleRecord 2 1520000000000 "credit" "$100.00",
     sampleRecord 3 1522000000000 "credit" "$500.00"]]

/-- Three pages: the March 2018 debits are on pages 1 and 3, page 2 has a credit
of February 2018 only. -/
def threePages : List UserTransactionResponse :=
  [{ Page := 1, PerPage := 2, Total := 4, TotalPages := 3,
     Data := [sampleRecord 1 1520000000000 "debit" "$10.00",
              sampleRecord 2 1518000000000 "debit" "$20.00"] },
   { Page := 2, PerPage := 2, Total := 4, TotalPages := 3,
     Data := [sampleRecord 3 1518000000000 "credit" "$40.00"] },
   { Page := 3, PerPage := 2, Total := 4, TotalPages := 3,
     Data := [sampleRecord 4 1522000000000 "debit" "$30.00"] }]

/-- A server whose dataset shrinks while it is read: the first answer announces
two pages, every later answer is page 2 of a single page. -/
def shrinkingServer : Server :=
  fun _ req =>
    match req.page with
    | none => some { Page := 1, PerPage := 1, Total := 2, TotalPages := 2, Data := [] }
    | some _ => some { Page := 2, PerPage := 1, Total := 1, TotalPages := 1, Data := [] }

/-! ## further reference definitions and sample data -/

/-- The record `w` is the record `v` with its type respelled: every other field is
the same, and the two types have the same lower-cased form. -/
def SameUpToCase (host : Host) (v w : UserTransactionDataResponse) : Prop :=
  host.toLower v.TxnType = host.toLower w.TxnType ∧ w = { v with TxnType := w.TxnType }

/-- Two states of the loop variables that agree up to the spelling of the types of
the stored records. -/
def TallyRel (host : Host) (a b : Tally) : Prop :=
  a.countDebitTxn = b.countDebitTxn ∧ a.sumDebitTxn = b.sumDebitTxn ∧
    List.Forall₂ (SameUpToCase host) a.requestedTransactions b.requestedTransactions

/-- Two runs of the record loop that panic alike or end in states that agree up to
the spelling of the types. -/
def ResultRel (host : Host) : Except Fault Tally → Except Fault Tally → Prop
  | Except.ok a, Except.ok b => TallyRel host a b
  | Except.error e, Except.error f => e = f
  | _, _ => False

/-- The dataset `marchDebits` with the types of its records spelled in other
cases. -/
def marchDebitsRespelled : List UserTransactionResponse :=
  [singlePage
    [sampleRecord 1 1520000000000 "DEBIT" "$10.00",
     sampleRecord 2 1520000000000 "Debit" "$20.00",
     sampleRecord 3 1522000000000 "dEbIt" "$30.00"]]

/-- The records of `marchDebits` on two pages, among records of February and April
2018 whose amounts are not numbers. -/
def marchDebitsAmongOthers : List UserTransactionResponse :=
  [{ Page := 1, PerPage := 3, Total := 5, TotalPages := 2,
     Data := [sampleRecord 8 1518000000000 "debit" "broken",
              sampleRecord 1 1520000000000 "debit" "$10.00",
              sampleRecord 2 1520000000000 "debit" "$20.00"] },
   { Page := 2, PerPage := 3, Total := 5, TotalPages := 2,
     Data := [sampleRecord 9 1525000000000 "credit" "",
              sampleRecord 3 1522000000000 "debit" "$30.00"] }]

/-- Year and month, in UTC, of the instant `timestampMillis` milliseconds after the
Unix epoch. -/
def utcYearMonth (timestampMillis : Int) : Int × Int :=
  civilYearMonth (timestampMillis / 86400000)

/-- A host whose local zone is nine hours east of UTC all year round. -/
def tokyoHost : Host where
  toLower := utcHost.toLower
  zoneOffset := fun _ => 32400

/-- Whether a `float64` value is a number, neither an infinity nor NaN. -/
def Float64.isFinite : Float64 → Bool
  | Float64.fin _ _ => true
  | _ => false

/-- The exact rational value of a finite `float64`, and 0 for the other values. -/
def Float64.toRat : Float64 → ℚ
  | Float64.fin m e => (m : ℚ) * (2 : ℚ) ^ e
  | _ => 0

/-- The exact value of the parsed amount of a record. -/
def exactAmount (v : UserTransactionDataResponse) : ℚ := (amountOf v).toRat

/-- The mean of the amounts of a list of records, in exact arithmetic. -/
def exactMean (records : List UserTransactionDataResponse) : ℚ :=
  (records.map exactAmount).sum / (records.length : ℚ)

/-- Three debits of 70 cents in March 2018. -/
def marchEqualDebits : List UserTransactionResponse :=
  [singlePage
    [sampleRecord 1 1520000000000 "debit" "$0.70",
     sampleRecord 2 1520000000000 "debit" "$0.70",
     sampleRecord 3 1522000000000 "debit" "$0.70"]]

/-! ## the page loop against a server that serves a list of pages -/

theorem numbered_cons (total k : Int) (r : UserTransactionResponse)
    (rs : List UserTransactionResponse) :
    numbered total k (r :: rs) = true ↔
      r.Page = k ∧ r.TotalPages = total ∧ numbered total (k + 1) rs = true := by
  simp [numbered, and_assoc]

theorem forEachPage_done {σ : Type} (srv : Server)
    (body : σ → UserTransactionResponse → Except Fault σ) (fuel : Nat) (log : List Request)
    (u : userTransactionRetriever) (s : σ) (h : hasNext u = false) :
    forEachPage srv body fuel log u s = (log, Outcome.returned (s, u)) := by
  cases fuel <;> simp [forEachPage, h]

theorem forEachPage_rest {σ : Type} (srv : Server) (uid : Int)
    (body : σ → UserTransactionResponse → Except Fault σ) :
    ∀ (rest : List UserTransactionResponse) (k fuel : Nat) (log : List Request)
      (u : userTransactionRetriever) (s : σ) (c : UserTransactionResponse),
      numbered ((k + rest.length : Nat) : Int) ((k : Int) + 1) rest = true →
      (∀ (lg : List Request) (i : Nat), i < rest.length →
        srv lg { uid := uid, page := some ((k : Int) + 1 + (i : Int)) } = rest[i]?) →
      u.uid = uid → u.curPage = (k : Int) → u.cache = some c → c.Page = (k : Int) →
      c.TotalPages = ((k + rest.length : Nat) : Int) → rest.length ≤ fuel →
      (∀ s1, foldPages body s rest = Except.ok s1 →
        ∃ u1, forEachPage srv body fuel log u s
            = (log ++ requestsFor uid ((k : Int) + 1) rest.length, Outcome.returned (s1, u1))
          ∧ hasNext u1 = false) ∧
      (∀ e, foldPages body s rest = Except.error e →
        ∃ log1, forEachPage srv body fuel log u s = (log1, Outcome.panicked e)) := by
  intro rest
  induction rest with
  | nil =>
    intro k fuel log u s c _ _ _ hcur hcache _ htot _
    have hn : hasNext u = false := by
      simp [hasNext, hcache, hcur, htot]
    refine ⟨?_, ?_⟩
    · intro s1 hs
      simp only [foldPages, Except.ok.injEq] at hs
      subst hs
      exact ⟨u, by simp [forEachPage_done, hn, requestsFor], hn⟩
    · intro e he
      simp [foldPages] at he
  | cons r rest ih =>
    intro k fuel log u s c hnum hsrv huid hcur hcache hpage htot hfuel
    obtain ⟨hrp, hrt, hrest⟩ := (numbered_cons _ _ _ _).1 hnum
    obtain ⟨fuel1, rfl⟩ : ∃ f, fuel = f + 1 := by
      cases fuel with
      | zero => simp at hfuel
      | succ f => exact ⟨f, rfl⟩
    have hlen : rest.length ≤ fuel1 := by
      simp only [List.length_cons] at hfuel
      omega
    have hn : hasNext u = true := by
      simp only [hasNext, hcache, hcur, htot, decide_eq_true_eq, List.length_cons]
      push_cast
      omega
    have hreq : srv log { uid := uid, page := some ((k : Int) + 1) } = some r := by
      have := hsrv log 0 (by simp)
      simpa using this
    have hne : (k : Int) + 1 ≠ c.Page := by
      rw [hpage]
      omega
    have hget : getNext srv log u
        = (log ++ [{ uid := uid, page := some ((k : Int) + 1) }],
            Except.ok (some r, { u with curPage := (k : Int) + 1, cache := some r })) := by
      simp [getNext, hn, hcache, hcur, hne, getRequest, huid, hreq]
    have hnum1 : numbered (((k + 1) + rest.length : Nat) : Int) (((k + 1 : Nat) : Int) + 1) rest
        = true := by
      have e1 : (((k + 1) + rest.length : Nat) : Int) = ((k + (r :: rest).length : Nat) : Int) := by
        simp only [List.length_cons]
        push_cast
        ring
      rw [e1, ← hrt]
      rw [← hrt] at hrest
      simpa using hrest
    have hsrv1 : ∀ (lg : List Request) (i : Nat), i < rest.length →
        srv lg { uid := uid, page := some (((k + 1 : Nat) : Int) + 1 + (i : Int)) } = rest[i]? := by
      intro lg i hi
      have := hsrv lg (i + 1) (by simpa using hi)
      have e2 : ((k : Int) + 1 + ((i + 1 : Nat) : Int)) = (((k + 1 : Nat) : Int) + 1 + (i : Int)) := by
        push_cast
        ring
      rw [e2] at this
      simpa using this
    have htot1 : r.TotalPages = (((k + 1) + rest.length : Nat) : Int) := by
      rw [hrt]
      simp only [List.length_cons]
      push_cast
      ring
    have hpage1 : r.Page = ((k + 1 : Nat) : Int) := by
      rw [hrp]
      push_cast
      ring
    have hstep : ∀ s2, body s r = Except.ok s2 →
        forEachPage srv body (fuel1 + 1) log u s
          = forEachPage srv body fuel1 (log ++ [{ uid := uid, page := some ((k : Int) + 1) }])
              { u with curPage := (k : Int) + 1, cache := some r } s2 := by
      intro s2 hs2
      simp [forEachPage, hn, hget, hs2]
    refine ⟨?_, ?_⟩
    · intro s1 hs
      cases hb : body s r with
      | error e => simp [foldPages, hb] at hs
      | ok s2 =>
        simp only [foldPages, hb] at hs
        obtain ⟨u1, hu1, hdone⟩ :=
          (ih (k + 1) fuel1 (log ++ [{ uid := uid, page := some ((k : Int) + 1) }])
            { u with curPage := (k : Int) + 1, cache := some r } s2 r hnum1 hsrv1 huid
            (by push_cast; rfl) rfl hpage1 htot1 hlen).1 s1 hs
        refine ⟨u1, ?_, hdone⟩
        rw [hstep s2 hb, hu1]
        simp [requestsFor]
    · intro e he
      cases hb : body s r with
      | error e1 =>
        simp only [foldPages, hb, Except.error.injEq] at he
        subst he
        exact ⟨log ++ [{ uid := uid, page := some ((k : Int) + 1) }],
          by simp [forEachPage, hn, hget, hb]⟩
      | ok s2 =>
        simp only [foldPages, hb] at he
        obtain ⟨log1, hl⟩ :=
          (ih (k + 1) fuel1 (log ++ [{ uid := uid, page := some ((k : Int) + 1) }])
            { u with curPage := (k : Int) + 1, cache := some r } s2 r hnum1 hsrv1 huid
            (by push_cast; rfl) rfl hpage1 htot1 hlen).2 e he
        exact ⟨log1, by rw [hstep s2 hb, hl]⟩

theorem forEachPage_serves {σ : Type} (srv : Server) (uid : Int)
    (pages : List UserTransactionResponse) (hs : ServesPages srv uid pages)
    (body : σ → UserTransactionResponse → Except Fault σ) (fuel : Nat) (log : List Request)
    (u : userTransactionRetriever) (s : σ)
    (huid : u.uid = uid) (hcur : u.curPage = 0) (hcache : u.cache = pages.head?)
    (hfuel : pages.length ≤ fuel) :
    (∀ s1, foldPages body s pages = Except.ok s1 →
      ∃ u1, forEachPage srv body fuel log u s
          = (log ++ requestsFor uid 2 (pages.length - 1), Outcome.returned (s1, u1))
        ∧ hasNext u1 = false) ∧
    (∀ e, foldPages body s pages = Except.error e →
      ∃ log1, forEachPage srv body fuel log u s = (log1, Outcome.panicked e)) := by
  obtain ⟨hne, hnum, -, hnth⟩ := hs
  cases pages with
  | nil => exact absurd rfl hne
  | cons p rest =>
    obtain ⟨hp, ht, hrest⟩ := (numbered_cons _ _ _ _).1 hnum
    simp only [List.head?_cons] at hcache
    obtain ⟨fuel1, rfl⟩ : ∃ f, fuel = f + 1 := by
      cases fuel with
      | zero => simp at hfuel
      | succ f => exact ⟨f, rfl⟩
    have hlen : rest.length ≤ fuel1 := by
      simp only [List.length_cons] at hfuel
      omega
    have hn : hasNext u = true := by
      simp only [hasNext, hcache, hcur, ht, decide_eq_true_eq, List.length_cons]
      push_cast
      omega
    have hget : getNext srv log u
        = (log, Except.ok (some p, { u with curPage := 1 })) := by
      simp [getNext, hn, hcache, hcur, hp]
    have hnum1 : numbered ((1 + rest.length : Nat) : Int) (((1 : Nat) : Int) + 1) rest = true := by
      have e1 : ((1 + rest.length : Nat) : Int) = (((p :: rest).length : Nat) : Int) := by
        simp only [List.length_cons]
        push_cast
        ring
      rw [e1]
      simpa using hrest
    have hsrv1 : ∀ (lg : List Request) (i : Nat), i < rest.length →
        srv lg { uid := uid, page := some (((1 : Nat) : Int) + 1 + (i : Int)) } = rest[i]? := by
      intro lg i hi
      have := hnth lg (i + 1) (by simpa using hi)
      have e2 : (((i + 1 : Nat) : Int) + 1) = (((1 : Nat) : Int) + 1 + (i : Int)) := by
        push_cast
        ring
      rw [e2] at this
      simpa using this
    have htot1 : p.TotalPages = ((1 + rest.length : Nat) : Int) := by
      rw [ht]
      simp only [List.length_cons]
      push_cast
      ring
    have hstep : ∀ s2, body s p = Except.ok s2 →
        forEachPage srv body (fuel1 + 1) log u s
          = forEachPage srv body fuel1 log { u with curPage := 1 } s2 := by
      intro s2 hs2
      simp [forEachPage, hn, hget, hs2]
    have hrec := fun s2 =>
      forEachPage_rest srv uid body rest 1 fuel1 log { u with curPage := 1 } s2 p hnum1 hsrv1
        huid (by simp) hcache (by simpa using hp) htot1 hlen
    refine ⟨?_, ?_⟩
    · intro s1 hs
      cases hb : body s p with
      | error e => simp [foldPages, hb] at hs
      | ok s2 =>
        simp only [foldPages, hb] at hs
        obtain ⟨u1, hu1, hdone⟩ := (hrec s2).1 s1 hs
        refine ⟨u1, ?_, hdone⟩
        rw [hstep s2 hb, hu1]
        simp
    · intro e he
      cases hb : body s p with
      | error e1 =>
        simp only [foldPages, hb, Except.error.injEq] at he
        subst he
        exact ⟨log, by simp [forEachPage, hn, hget, hb]⟩
      | ok s2 =>
        simp only [foldPages, hb] at he
        obtain ⟨log1, hl⟩ := (hrec s2).2 e he
        exact ⟨log1, by rw [hstep s2 hb, hl]⟩

theorem pagedServer_serves (uid : Int) (pages : List UserTransactionResponse)
    (hne : pages ≠ []) (hnum : numbered (pages.length : Int) 1 pages = true) :
    ServesPages (pagedServer pages) uid pages := by
  refine ⟨hne, hnum, ?_, ?_⟩
  · intro log
    rfl
  · intro log i _
    have h1 : (1 : Int) ≤ (i : Int) + 1 := by omega
    simp [pagedServer, h1]

theorem page_of_mem_requestsFor (uid : Int) :
    ∀ (n : Nat) (k : Int) (q : Request), q ∈ requestsFor uid k n →
      ∃ j : Int, q.page = some j ∧ k ≤ j := by
  intro n
  induction n with
  | zero =>
    intro k q hq
    simp [requestsFor] at hq
  | succ n ih =>
    intro k q hq
    simp only [requestsFor, List.mem_cons] at hq
    rcases hq with rfl | hq
    · exact ⟨k, rfl, le_refl k⟩
    · obtain ⟨j, hj, hkj⟩ := ih (k + 1) q hq
      exact ⟨j, hj, by omega⟩

theorem requestsFor_nodup (uid : Int) :
    ∀ (n : Nat) (k : Int), (requestsFor uid k n).Nodup := by
  intro n
  induction n with
  | zero =>
    intro k
    simp [requestsFor]
  | succ n ih =>
    intro k
    simp only [requestsFor, List.nodup_cons]
    refine ⟨?_, ih (k + 1)⟩
    intro hmem
    obtain ⟨j, hj, hkj⟩ := page_of_mem_requestsFor uid n (k + 1) _ hmem
    simp only [Option.some.injEq] at hj
    omega

/-! ## the analysis of the records -/

theorem tallyRecords_cons (host : Host) (txnType : String) (m y : Int) (t : Tally)
    (v : UserTransactionDataResponse) (vs : List UserTransactionDataResponse) :
    tallyRecords host txnType m y t (v :: vs) =
      (tallyRecord host txnType m y t v).bind (fun t1 => tallyRecords host txnType m y t1 vs) := by
  rw [tallyRecords]
  generalize tallyRecord host txnType m y t v = res
  cases res <;> rfl

theorem tallyRecords_append (host : Host) (txnType : String) (m y : Int) :
    ∀ (xs : List UserTransactionDataResponse) (t : Tally)
      (ys : List UserTransactionDataResponse),
      tallyRecords host txnType m y t (xs ++ ys) =
        (tallyRecords host txnType m y t xs).bind
          (fun t1 => tallyRecords host txnType m y t1 ys) := by
  intro xs
  induction xs with
  | nil =>
    intro t ys
    rw [List.nil_append, tallyRecords]
    rfl
  | cons v vs ih =>
    intro t ys
    rw [List.cons_append, tallyRecords_cons, tallyRecords_cons]
    generalize tallyRecord host txnType m y t v = res
    cases res with
    | error e => rfl
    | ok t1 => exact ih t1 ys

theorem foldPages_tally (host : Host) (txnType : String) (m y : Int) :
    ∀ (pages : List UserTransactionResponse) (t : Tally),
      foldPages (fun t response => tallyRecords host txnType m y t response.Data) t pages
        = tallyRecords host txnType m y t (allRecords pages) := by
  intro pages
  induction pages with
  | nil =>
    intro t
    rw [foldPages]
    rfl
  | cons p ps ih =>
    intro t
    have hall : allRecords (p :: ps) = p.Data ++ allRecords ps := by
      simp [allRecords]
    rw [hall, tallyRecords_append, foldPages]
    generalize tallyRecords host txnType m y t p.Data = res
    cases res with
    | error e => rfl
    | ok t1 => exact ih t1

theorem getUserTransaction_serves (host : Host) (srv : Server) (uid : Int)
    (pages : List UserTransactionResponse) (hs : ServesPages srv uid pages)
    (fuel : Nat) (hfuel : pages.length ≤ fuel) (txnType monthYear : String) (m y : Int)
    (hvalid : host.toLower txnType = credit ∨ host.toLower txnType = debit)
    (hmy : convertMonthYearToInt monthYear = Except.ok (m, y)) :
    (getUserTransaction host srv fuel uid txnType monthYear).2
      = analyze host (host.toLower txnType) m y (allRecords pages) := by
  have hv : ¬ (host.toLower txnType ≠ credit ∧ host.toLower txnType ≠ debit) := by
    rcases hvalid with h | h <;> simp [h]
  obtain ⟨p, rest, rfl⟩ : ∃ p rest, pages = p :: rest := by
    cases pages with
    | nil => exact absurd rfl hs.nonempty
    | cons p rest => exact ⟨p, rest, rfl⟩
  have hfirst := hs.first []
  simp only [List.head?_cons] at hfirst
  have hinit : initializeUserTransactionRetriever srv [] endpoint uid (host.toLower txnType)
      monthYear
      = ([{ uid := uid, page := none }],
          Except.ok { apiEndpoint := endpoint, uid := uid, txnType := host.toLower txnType,
                      monthYear := monthYear, curPage := 0, cache := some p }) := by
    simp [initializeUserTransactionRetriever, getRequest, hfirst]
  have hloop := forEachPage_serves srv uid (p :: rest) hs
    (fun t response => tallyRecords host (host.toLower txnType) m y t response.Data)
    fuel [{ uid := uid, page := none }]
    { apiEndpoint := endpoint, uid := uid, txnType := host.toLower txnType,
      monthYear := monthYear, curPage := 0, cache := some p } {} rfl rfl rfl hfuel
  rw [foldPages_tally] at hloop
  simp only [getUserTransaction, hv, if_false, hmy, hinit, analyze]
  cases ht : tallyRecords host (host.toLower txnType) m y {} (allRecords (p :: rest)) with
  | error e =>
    obtain ⟨log1, hl⟩ := hloop.2 e ht
    simp [hl]
  | ok t =>
    obtain ⟨u1, hl, -⟩ := hloop.1 t ht
    simp [hl]

theorem mem_monthRecordsOfType (host : Host) (txnType : String) (m y : Int)
    (records : List UserTransactionDataResponse) (v : UserTransactionDataResponse) :
    v ∈ monthRecordsOfType host txnType m y records ↔
      v ∈ records ∧ inRequestedMonth host m y v = true ∧ host.toLower v.TxnType = txnType := by
  simp [monthRecordsOfType]

theorem monthRecordsOfType_cons (host : Host) (txnType : String) (m y : Int)
    (v : UserTransactionDataResponse) (vs : List UserTransactionDataResponse) :
    monthRecordsOfType host txnType m y (v :: vs) =
      if inRequestedMonth host m y v = true ∧ host.toLower v.TxnType = txnType then
        v :: monthRecordsOfType host txnType m y vs
      else monthRecordsOfType host txnType m y vs := by
  by_cases h : inRequestedMonth host m y v = true ∧ host.toLower v.TxnType = txnType
  · simp [monthRecordsOfType, List.filter_cons, h]
  · rw [if_neg h]
    have : ¬ ((inRequestedMonth host m y v && decide (host.toLower v.TxnType = txnType)) = true) := by
      simpa using h
    simp [monthRecordsOfType, List.filter_cons, this]

theorem amountOf_of_parse (v : UserTransactionDataResponse) (h : amountParses v.Amount = true) :
    convertAmountToFloat v.Amount = Except.ok (amountOf v) := by
  unfold amountParses at h
  unfold amountOf
  cases hc : convertAmountToFloat v.Amount with
  | error e => simp [hc] at h
  | ok a => rfl

theorem monthRecordsOfType_append (host : Host) (txnType : String) (m y : Int)
    (xs ys : List UserTransactionDataResponse) :
    monthRecordsOfType host txnType m y (xs ++ ys) =
      monthRecordsOfType host txnType m y xs ++ monthRecordsOfType host txnType m y ys := by
  simp [monthRecordsOfType]

theorem tallyRecord_ok (host : Host) (txnType : String) (m y : Int) (t : Tally)
    (v : UserTransactionDataResponse)
    (hv : inRequestedMonth host m y v = true → host.toLower v.TxnType = debit →
      amountParses v.Amount = true) :
    tallyRecord host txnType m y t v = Except.ok
      { countDebitTxn :=
          t.countDebitTxn + ((monthRecordsOfType host debit m y [v]).length : Int)
        sumDebitTxn :=
          (monthRecordsOfType host debit m y [v]).foldl
            (fun s v => Float64.add s (amountOf v)) t.sumDebitTxn
        requestedTransactions :=
          t.requestedTransactions ++ monthRecordsOfType host txnType m y [v] } := by
  have e0 : ∀ tt, monthRecordsOfType host tt m y [] = [] := fun _ => rfl
  have e1 := monthRecordsOfType_cons host debit m y v []
  have e2 := monthRecordsOfType_cons host txnType m y v []
  rw [e0] at e1 e2
  rw [e1, e2]
  unfold tallyRecord
  by_cases hm : inRequestedMonth host m y v = true
  · rw [if_pos hm]
    by_cases hd : host.toLower v.TxnType = debit
    · rw [if_pos hd, amountOf_of_parse v (hv hm hd), if_pos ⟨hm, hd⟩]
      by_cases hr : host.toLower v.TxnType = txnType
      · rw [if_pos ⟨hm, hr⟩]
        simp only [if_pos hr]
        simp
      · rw [if_neg (fun h => hr h.2)]
        simp only [if_neg hr]
        simp
    · rw [if_neg hd, if_neg (fun h => hd h.2)]
      by_cases hr : host.toLower v.TxnType = txnType
      · rw [if_pos ⟨hm, hr⟩]
        simp only [if_pos hr]
        simp
      · rw [if_neg (fun h => hr h.2)]
        simp only [if_neg hr]
        simp
  · rw [if_neg hm, if_neg (fun h => hm h.1), if_neg (fun h => hm h.1)]
    simp

theorem tallyRecords_ok (host : Host) (txnType : String) (m y : Int) :
    ∀ (records : List UserTransactionDataResponse) (t : Tally),
      AmountsParse host debit m y records →
      tallyRecords host txnType m y t records = Except.ok
        { countDebitTxn :=
            t.countDebitTxn + ((monthRecordsOfType host debit m y records).length : Int)
          sumDebitTxn :=
            (monthRecordsOfType host debit m y records).foldl
              (fun s v => Float64.add s (amountOf v)) t.sumDebitTxn
          requestedTransactions :=
            t.requestedTransactions ++ monthRecordsOfType host txnType m y records } := by
  intro records
  induction records with
  | nil =>
    intro t _
    have e0 : ∀ tt, monthRecordsOfType host tt m y [] = [] := fun _ => rfl
    rw [tallyRecords, e0, e0]
    simp
  | cons v vs ih =>
    intro t hp
    have hp1 : AmountsParse host debit m y vs := by
      intro w hw
      apply hp w
      rw [mem_monthRecordsOfType] at hw ⊢
      exact ⟨List.mem_cons_of_mem _ hw.1, hw.2⟩
    have hv : inRequestedMonth host m y v = true → host.toLower v.TxnType = debit →
        amountParses v.Amount = true := by
      intro hm hd
      apply hp v
      rw [mem_monthRecordsOfType]
      exact ⟨List.mem_cons_self _ _, hm, hd⟩
    have hsplit : ∀ tt, monthRecordsOfType host tt m y (v :: vs)
        = monthRecordsOfType host tt m y [v] ++ monthRecordsOfType host tt m y vs := by
      intro tt
      rw [← monthRecordsOfType_append]
      rfl
    rw [tallyRecords_cons, tallyRecord_ok host txnType m y t v hv, hsplit, hsplit]
    simp only [Except.bind]
    rw [ih _ hp1]
    simp [List.foldl_append, add_assoc]

theorem selectAnswers_ok (average : Float64) :
    ∀ (cands : List UserTransactionDataResponse) (answers : List Int),
      (∀ v ∈ cands, amountParses v.Amount = true) →
      selectAnswers average cands answers = Except.ok
        (answers ++ (cands.filter (fun v => Float64.gt (amountOf v) average)).map
          (fun v => v.Id)) := by
  intro cands
  induction cands with
  | nil =>
    intro answers _
    simp [selectAnswers]
  | cons v vs ih =>
    intro answers hp
    have hv := amountOf_of_parse v (hp v (List.mem_cons_self _ _))
    have hvs : ∀ w ∈ vs, amountParses w.Amount = true :=
      fun w hw => hp w (List.mem_cons_of_mem _ hw)
    simp only [selectAnswers, hv]
    by_cases hg : Float64.gt (amountOf v) average = true
    · simp [hg, ih _ hvs, List.filter_cons]
    · simp [hg, ih _ hvs, List.filter_cons]

theorem analyze_of_parse (host : Host) (txnType : String) (m y : Int)
    (records : List UserTransactionDataResponse)
    (hd : AmountsParse host debit m y records)
    (hr : AmountsParse host txnType m y records) :
    analyze host txnType m y records =
      Outcome.returned
        (if aboveAverage host txnType m y records = [] then [-1]
         else (aboveAverage host txnType m y records).map (fun v => v.Id)) := by
  have hsel := selectAnswers_ok (debitAverage host m y records)
    (monthRecordsOfType host txnType m y records) [] hr
  simp only [analyze, tallyRecords_ok host txnType m y records {} hd, finish]
  have havg : Float64.div
      ((monthRecordsOfType host debit m y records).foldl
        (fun s v => Float64.add s (amountOf v)) ({} : Tally).sumDebitTxn)
      (Float64.ofInt (({} : Tally).countDebitTxn
        + ((monthRecordsOfType host debit m y records).length : Int)))
      = debitAverage host m y records := by
    simp [debitAverage, sumAmounts]
  simp only [havg, List.nil_append] at hsel ⊢
  by_cases hz : monthRecordsOfType host txnType m y records = []
  · simp [hz, aboveAverage]
  · have hlen : ¬ (monthRecordsOfType host txnType m y records).length = 0 := by
      simpa using hz
    simp only [hlen, if_false, hsel, List.nil_append]
    by_cases ha : aboveAverage host txnType m y records = []
    · have ha1 := ha
      unfold aboveAverage at ha1
      simp [ha, ha1]
    · have ha1 := ha
      unfold aboveAverage at ha1
      simp [ha, aboveAverage, ha1]

theorem analyze_ne_outOfFuel (host : Host) (txnType : String) (m y : Int)
    (records : List UserTransactionDataResponse) :
    analyze host txnType m y records ≠ Outcome.outOfFuel := by
  unfold analyze
  cases tallyRecords host txnType m y {} records with
  | error e => simp
  | ok t =>
    simp only [finish]
    split
    · simp
    · split
      · simp
      · split <;> simp

theorem gt_nan (a : Float64) : Float64.gt a Float64.nan = false := by
  cases a <;> rfl

theorem eq_false_of_gt (a b : Float64) (h : Float64.gt a b = true) :
    Float64.eq a b = false := by
  cases a with
  | nan => simp [Float64.gt] at h
  | inf x =>
    cases b with
    | nan => rfl
    | inf z =>
      cases x <;> cases z <;> first | rfl | simp [Float64.gt] at h
    | fin _ _ => rfl
  | fin m1 e1 =>
    cases b with
    | nan => rfl
    | inf _ => rfl
    | fin m2 e2 =>
      simp only [Float64.gt, decide_eq_true_eq] at h
      simp only [Float64.eq, decide_eq_false_iff_not]
      exact ne_of_lt h

theorem debitAverage_nan (host : Host) (m y : Int)
    (records : List UserTransactionDataResponse)
    (h : monthRecordsOfType host debit m y records = []) :
    debitAverage host m y records = Float64.nan := by
  unfold debitAverage
  rw [h]
  decide

theorem amountsParse_of_nil (host : Host) (txnType : String) (m y : Int)
    (records : List UserTransactionDataResponse)
    (h : monthRecordsOfType host txnType m y records = []) :
    AmountsParse host txnType m y records := by
  intro v hv
  rw [h] at hv
  simp at hv

theorem credit_ne_debit : credit ≠ debit := by decide

theorem monthDebits_replace_credit (host : Host) (m y : Int)
    (pre post : List UserTransactionDataResponse) (v : UserTransactionDataResponse)
    (amount : String) (hv : host.toLower v.TxnType = credit) :
    monthRecordsOfType host debit m y (pre ++ { v with Amount := amount } :: post)
      = monthRecordsOfType host debit m y (pre ++ v :: post) := by
  have hnd : ¬ host.toLower v.TxnType = debit := by
    rw [hv]
    exact credit_ne_debit
  rw [monthRecordsOfType_append, monthRecordsOfType_append, monthRecordsOfType_cons,
    monthRecordsOfType_cons, if_neg (fun h => hnd h.2), if_neg (fun h => hnd h.2)]

theorem getUserTransaction_of_invalid (host : Host) (srv : Server) (fuel : Nat)
    (uid : Int) (txnType monthYear : String)
    (h1 : host.toLower txnType ≠ credit) (h2 : host.toLower txnType ≠ debit) :
    getUserTransaction host srv fuel uid txnType monthYear
      = ([], Outcome.panicked (Fault.invalidTxnType (host.toLower txnType))) := by
  simp [getUserTransaction, h1, h2]

theorem getUserTransaction_of_monthYear_error (host : Host) (srv : Server) (fuel : Nat)
    (uid : Int) (txnType monthYear : String) (e : Fault)
    (hvalid : host.toLower txnType = credit ∨ host.toLower txnType = debit)
    (hmy : convertMonthYearToInt monthYear = Except.error e) :
    getUserTransaction host srv fuel uid txnType monthYear = ([], Outcome.panicked e) := by
  have hv : ¬ (host.toLower txnType ≠ credit ∧ host.toLower txnType ≠ debit) := by
    rcases hvalid with h | h <;> simp [h]
  simp [getUserTransaction, hv, hmy]

theorem foldPages_collect :
    ∀ (pages acc : List UserTransactionResponse),
      foldPages (fun acc response => Except.ok (acc ++ [response])) acc pages
        = Except.ok (acc ++ pages) := by
  intro pages
  induction pages with
  | nil =>
    intro acc
    simp [foldPages]
  | cons p ps ih =>
    intro acc
    simp [foldPages, ih]

theorem getNext_log (srv : Server) (log : List Request) (u : userTransactionRetriever) :
    ∃ l, (getNext srv log u).1 = log ++ l := by
  unfold getNext
  by_cases hn : hasNext u = true
  · simp only [hn, Bool.not_true, Bool.false_eq_true, if_false]
    cases hc : u.cache with
    | none => exact ⟨[], by simp⟩
    | some c =>
      simp only []
      by_cases hp : u.curPage + 1 ≠ c.Page
      · simp only [hp, ne_eq, not_false_eq_true, if_true, getRequest]
        cases srv log { uid := u.uid, page := some (u.curPage + 1) } with
        | none => exact ⟨[{ uid := u.uid, page := some (u.curPage + 1) }], rfl⟩
        | some r => exact ⟨[{ uid := u.uid, page := some (u.curPage + 1) }], rfl⟩
      · simp only [hp, if_false]
        exact ⟨[], by simp⟩
  · simp only [hn, Bool.not_false, if_true]
    exact ⟨[], by simp⟩

theorem forEachPage_log {σ : Type} (srv : Server)
    (body : σ → UserTransactionResponse → Except Fault σ) :
    ∀ (fuel : Nat) (log : List Request) (u : userTransactionRetriever) (s : σ),
      ∃ l, (forEachPage srv body fuel log u s).1 = log ++ l := by
  intro fuel
  induction fuel with
  | zero =>
    intro log u s
    unfold forEachPage
    split <;> exact ⟨[], by simp⟩
  | succ n ih =>
    intro log u s
    unfold forEachPage
    split
    · exact ⟨[], by simp⟩
    · obtain ⟨l, hl⟩ := getNext_log srv log u
      split
      · rename_i heq
        rw [heq] at hl
        exact ⟨l, hl⟩
      · rename_i heq
        rw [heq] at hl
        exact ⟨l, hl⟩
      · rename_i log1 response u1 heq
        rw [heq] at hl
        simp only at hl
        split
        · exact ⟨l, hl⟩
        · rename_i s1 _
          obtain ⟨l2, hl2⟩ := ih log1 u1 s1
          exact ⟨l ++ l2, by rw [hl2, hl, List.append_assoc]⟩

theorem getNext_curPage_le (srv : Server) (uid : Int)
    (hn : ∀ (log : List Request) (n : Int) (r : UserTransactionResponse),
      srv log { uid := uid, page := some n } = some r → n ≤ r.TotalPages)
    (log : List Request) (u : userTransactionRetriever) (huid : u.uid = uid)
    (hinv : ∃ c, u.cache = some c ∧ u.curPage ≤ c.TotalPages)
    (log1 : List Request) (r : Option UserTransactionResponse) (u1 : userTransactionRetriever)
    (hget : getNext srv log u = (log1, Except.ok (r, u1))) :
    u1.uid = uid ∧ ∃ c, u1.cache = some c ∧ u1.curPage ≤ c.TotalPages := by
  obtain ⟨c, hc, hle⟩ := hinv
  unfold getNext at hget
  by_cases hh : hasNext u = true
  · have hlt : u.curPage < c.TotalPages := by
      simpa [hasNext, hc] using hh
    simp only [hh, Bool.not_true, Bool.false_eq_true, if_false, hc] at hget
    by_cases hp : u.curPage + 1 ≠ c.Page
    · simp only [hp, ne_eq, not_false_eq_true, if_true, getRequest, huid] at hget
      cases hs : srv log { uid := uid, page := some (u.curPage + 1) } with
      | none => simp [hs] at hget
      | some r1 =>
        simp only [hs, Prod.mk.injEq, Except.ok.injEq] at hget
        obtain ⟨-, -, rfl⟩ := hget
        exact ⟨rfl, r1, rfl, hn log _ r1 hs⟩
    · simp only [hp, if_false, Prod.mk.injEq, Except.ok.injEq] at hget
      obtain ⟨-, -, rfl⟩ := hget
      exact ⟨huid, c, rfl, by simp only []; omega⟩
  · simp only [hh, Bool.not_false, if_true, Prod.mk.injEq, Except.ok.injEq] at hget
    obtain ⟨-, -, rfl⟩ := hget
    exact ⟨huid, c, hc, hle⟩

theorem getNextTimes_curPage_le (srv : Server) (uid : Int)
    (hn : ∀ (log : List Request) (n : Int) (r : UserTransactionResponse),
      srv log { uid := uid, page := some n } = some r → n ≤ r.TotalPages) :
    ∀ (k : Nat) (log : List Request) (u : userTransactionRetriever), u.uid = uid →
      (∃ c, u.cache = some c ∧ u.curPage ≤ c.TotalPages) →
      ∀ (log1 : List Request) (u1 : userTransactionRetriever),
        getNextTimes srv k log u = (log1, Except.ok u1) →
        ∃ c, u1.cache = some c ∧ u1.curPage ≤ c.TotalPages := by
  intro k
  induction k with
  | zero =>
    intro log u _ hinv log1 u1 h
    simp only [getNextTimes, Prod.mk.injEq, Except.ok.injEq] at h
    obtain ⟨-, rfl⟩ := h
    exact hinv
  | succ k ih =>
    intro log u huid hinv log1 u1 h
    unfold getNextTimes at h
    cases hg : getNext srv log u with
    | mk log2 res =>
      cases res with
      | error e => simp [hg] at h
      | ok pr =>
        obtain ⟨r, u2⟩ := pr
        simp only [hg] at h
        obtain ⟨huid2, hinv2⟩ := getNext_curPage_le srv uid hn log u huid hinv log2 r u2 hg
        exact ih log2 u2 huid2 hinv2 log1 u1 h

theorem getNext_of_exhausted (srv : Server) (log : List Request)
    (u : userTransactionRetriever) (h : hasNext u = false) :
    getNext srv log u = (log, Except.ok (none, u)) := by
  simp [getNext, h]

theorem getNextTimes_of_exhausted (srv : Server) (u : userTransactionRetriever)
    (h : hasNext u = false) :
    ∀ (n : Nat) (log : List Request), getNextTimes srv n log u = (log, Except.ok u) := by
  intro n
  induction n with
  | zero =>
    intro log
    rfl
  | succ n ih =>
    intro log
    simp [getNextTimes, getNext_of_exhausted srv log u h, ih]

theorem numbered_getElem? (total : Int) :
    ∀ (pages : List UserTransactionResponse) (k : Int) (i : Nat) (r : UserTransactionResponse),
      numbered total k pages = true → pages[i]? = some r →
      r.Page = k + (i : Int) ∧ r.TotalPages = total := by
  intro pages
  induction pages with
  | nil =>
    intro k i r _ h
    simp at h
  | cons p ps ih =>
    intro k i r hnum h
    obtain ⟨hp, ht, hrest⟩ := (numbered_cons _ _ _ _).1 hnum
    cases i with
    | zero =>
      simp only [List.getElem?_cons_zero, Option.some.injEq] at h
      subst h
      exact ⟨by simpa using hp, ht⟩
    | succ j =>
      simp only [List.getElem?_cons_succ] at h
      obtain ⟨h1, h2⟩ := ih (k + 1) j r hrest h
      exact ⟨by rw [h1]; push_cast; ring, h2⟩

theorem pagedServer_totalPages (uid : Int) (pages : List UserTransactionResponse)
    (hnum : numbered (pages.length : Int) 1 pages = true) :
    (∀ (log : List Request) (r : UserTransactionResponse),
      pagedServer pages log { uid := uid, page := none } = some r → 0 ≤ r.TotalPages) ∧
    (∀ (log : List Request) (n : Int) (r : UserTransactionResponse),
      pagedServer pages log { uid := uid, page := some n } = some r → n ≤ r.TotalPages) := by
  refine ⟨?_, ?_⟩
  · intro log r h
    simp only [pagedServer, List.head?_eq_getElem?] at h
    rw [(numbered_getElem? _ pages 1 0 r hnum h).2]
    exact Int.natCast_nonneg _
  · intro log n r h
    simp only [pagedServer] at h
    by_cases h1 : 1 ≤ n
    · simp only [h1, if_true] at h
      have hlt : (n - 1).toNat < pages.length := by
        by_contra hge
        rw [List.getElem?_eq_none (by omega)] at h
        exact Option.noConfusion h
      rw [(numbered_getElem? _ pages 1 _ r hnum h).2]
      omega
    · simp [h1] at h

theorem aboveThreshold_append (host : Host) (txnType : String) (m y : Int) (a : Float64)
    (xs ys : List UserTransactionDataResponse) :
    aboveThreshold host txnType m y a (xs ++ ys) =
      aboveThreshold host txnType m y a xs ++ aboveThreshold host txnType m y a ys := by
  simp [aboveThreshold, monthRecordsOfType_append]

theorem aboveThreshold_split (host : Host) (txnType : String) (m y : Int) (a : Float64)
    (pre post : List UserTransactionDataResponse) (v : UserTransactionDataResponse) :
    aboveThreshold host txnType m y a (pre ++ v :: post) =
      aboveThreshold host txnType m y a pre ++ aboveThreshold host txnType m y a [v]
        ++ aboveThreshold host txnType m y a post := by
  have h : pre ++ v :: post = pre ++ ([v] ++ post) := rfl
  rw [h, aboveThreshold_append, aboveThreshold_append, List.append_assoc]

theorem mem_aboveThreshold (host : Host) (txnType : String) (m y : Int) (a : Float64)
    (records : List UserTransactionDataResponse) (v : UserTransactionDataResponse) :
    v ∈ aboveThreshold host txnType m y a records ↔
      v ∈ records ∧ inRequestedMonth host m y v = true ∧ host.toLower v.TxnType = txnType ∧
        Float64.gt (amountOf v) a = true := by
  unfold aboveThreshold
  rw [List.mem_filter, mem_monthRecordsOfType]
  tauto

theorem amountsParse_replace (host : Host) (txnType : String) (m y : Int)
    (pre post : List UserTransactionDataResponse) (v : UserTransactionDataResponse)
    (amount : String) (hparse : amountParses amount = true)
    (h : AmountsParse host txnType m y (pre ++ v :: post)) :
    AmountsParse host txnType m y (pre ++ { v with Amount := amount } :: post) := by
  intro w hw
  rw [mem_monthRecordsOfType] at hw
  obtain ⟨hmem, hm, ht⟩ := hw
  rcases List.mem_append.1 hmem with hp | hp
  · exact h w ((mem_monthRecordsOfType _ _ _ _ _ _).2 ⟨List.mem_append_left _ hp, hm, ht⟩)
  · rcases List.mem_cons.1 hp with rfl | hp
    · exact hparse
    · exact h w ((mem_monthRecordsOfType _ _ _ _ _ _).2
        ⟨List.mem_append_right _ (List.mem_cons_of_mem _ hp), hm, ht⟩)

/-! ## the claims -/

/-- C1: for every uid, monthYear and txnType whose lower-cased form is neither
"credit" nor "debit", `getUserTransaction` panics with the invalid-type message and
has issued no request at all, whatever the server would answer. -/
theorem getUserTransaction_invalid_txnType (host : Host) (srv : Server) (fuel : Nat)
    (uid : Int) (txnType monthYear : String)
    (h1 : host.toLower txnType ≠ credit) (h2 : host.toLower txnType ≠ debit) :
    getUserTransaction host srv fuel uid txnType monthYear
      = ([], Outcome.panicked (Fault.invalidTxnType (host.toLower txnType))) :=
  getUserTransaction_of_invalid host srv fuel uid txnType monthYear h1 h2

set_option maxRecDepth 1000000 in
theorem getUserTransaction_invalid_txnType_witness :
    utcHost.toLower "Refund" ≠ credit ∧ utcHost.toLower "Refund" ≠ debit ∧
      getUserTransaction utcHost (pagedServer marchDebits) 4 1 "Refund" "3-2018"
        = ([], Outcome.panicked (Fault.invalidTxnType "refund")) :=
  ⟨by decide, by decide,
    getUserTransaction_invalid_txnType utcHost (pagedServer marchDebits) 4 1 "Refund" "3-2018"
      (by decide) (by decide)⟩

/-- C2, as amended: for a valid txnType, a monthYear that parses to month `m` and
year `y`, and records served over any number of pages, provided every record of
the month that is a debit or of the requested type has an amount that parses, and
at least one record of the month and of the requested type has an amount strictly
greater than the average of the month's debit amounts, `getUserTransaction` returns
exactly the ids of these records, in the order of the pages and within a page; a
record whose amount equals the average is not among them. -/
theorem getUserTransaction_above_average (host : Host) (srv : Server) (uid : Int)
    (pages : List UserTransactionResponse) (hs : ServesPages srv uid pages)
    (fuel : Nat) (hfuel : pages.length ≤ fuel) (txnType monthYear : String) (m y : Int)
    (hvalid : host.toLower txnType = credit ∨ host.toLower txnType = debit)
    (hmy : convertMonthYearToInt monthYear = Except.ok (m, y))
    (hd : AmountsParse host debit m y (allRecords pages))
    (hr : AmountsParse host (host.toLower txnType) m y (allRecords pages))
    (hne : aboveAverage host (host.toLower txnType) m y (allRecords pages) ≠ []) :
    (getUserTransaction host srv fuel uid txnType monthYear).2
        = Outcome.returned
            ((aboveAverage host (host.toLower txnType) m y (allRecords pages)).map
              (fun v => v.Id)) ∧
      ∀ v, Float64.eq (amountOf v) (debitAverage host m y (allRecords pages)) = true →
        v ∉ aboveAverage host (host.toLower txnType) m y (allRecords pages) := by
  refine ⟨?_, ?_⟩
  · rw [getUserTransaction_serves host srv uid pages hs fuel hfuel txnType monthYear m y hvalid
      hmy, analyze_of_parse host _ m y _ hd hr, if_neg hne]
  · intro v heq hmem
    have hgt : Float64.gt (amountOf v) (debitAverage host m y (allRecords pages)) = true := by
      unfold aboveAverage at hmem
      exact (List.mem_filter.1 hmem).2
    rw [eq_false_of_gt _ _ hgt] at heq
    exact Bool.false_ne_true heq

set_option maxRecDepth 1000000 in
theorem getUserTransaction_above_average_witness :
    (getUserTransaction utcHost (pagedServer marchDebits) 1 1 "debit" "3-2018").2
        = Outcome.returned [3] :=
  (getUserTransaction_above_average utcHost (pagedServer marchDebits) 1 marchDebits
    (pagedServer_serves 1 marchDebits (by decide) (by decide)) 1 (by decide)
    "debit" "3-2018" 3 2018 (by decide) (by rfl)
    (by unfold AmountsParse; with_unfolding_all decide)
    (by unfold AmountsParse; with_unfolding_all decide)
    (by with_unfolding_all decide)).1.trans (by with_unfolding_all decide)

set_option maxRecDepth 1000000 in
theorem getUserTransaction_above_average_counterexample :
    ServesPages (pagedServer marchBadCredit) 1 marchBadCredit ∧
      (utcHost.toLower "credit" = credit ∨ utcHost.toLower "credit" = debit) ∧
      convertMonthYearToInt "3-2018" = Except.ok (3, 2018) ∧
      (aboveAverage utcHost credit 3 2018 (allRecords marchBadCredit)).map (fun v => v.Id)
        = [1] ∧
      (getUserTransaction utcHost (pagedServer marchBadCredit) 1 1 "credit" "3-2018").2
        = Outcome.panicked (Fault.parseFloatError "/a") ∧
      ∀ fuel, (getUserTransaction utcHost (pagedServer marchBadCredit) fuel 1 "credit"
          "3-2018").2 ≠ Outcome.returned [1] := by
  refine ⟨pagedServer_serves 1 marchBadCredit (by decide) (by decide), by decide, by rfl,
    by with_unfolding_all decide, by with_unfolding_all decide, ?_⟩
  intro fuel
  cases fuel with
  | zero => with_unfolding_all decide
  | succ n =>
    rw [getUserTransaction_serves utcHost (pagedServer marchBadCredit) 1 marchBadCredit
      (pagedServer_serves 1 marchBadCredit (by decide) (by decide)) (n + 1)
      (by simp [marchBadCredit]) "credit" "3-2018" 3 2018 (by decide) (by rfl)]
    with_unfolding_all decide

/-- C3, as amended: for records served over any number of pages and a valid
request, provided every debit record of the requested month has an amount that
parses, if no record is both in the requested month and of the requested type,
`getUserTransaction` returns exactly `[-1]`; the month may contain debit records
(the requested type being credit) or no record at all. -/
theorem getUserTransaction_no_requested_record (host : Host) (srv : Server) (uid : Int)
    (pages : List UserTransactionResponse) (hs : ServesPages srv uid pages)
    (fuel : Nat) (hfuel : pages.length ≤ fuel) (txnType monthYear : String) (m y : Int)
    (hvalid : host.toLower txnType = credit ∨ host.toLower txnType = debit)
    (hmy : convertMonthYearToInt monthYear = Except.ok (m, y))
    (hd : AmountsParse host debit m y (allRecords pages))
    (hnone : monthRecordsOfType host (host.toLower txnType) m y (allRecords pages) = []) :
    (getUserTransaction host srv fuel uid txnType monthYear).2 = Outcome.returned [-1] := by
  have ha : aboveAverage host (host.toLower txnType) m y (allRecords pages) = [] := by
    unfold aboveAverage
    rw [hnone]
    rfl
  rw [getUserTransaction_serves host srv uid pages hs fuel hfuel txnType monthYear m y hvalid
    hmy, analyze_of_parse host _ m y _ hd (amountsParse_of_nil host _ m y _ hnone), if_pos ha]

set_option maxRecDepth 1000000 in
theorem getUserTransaction_no_requested_record_witness :
    monthRecordsOfType utcHost debit 3 2018 (allRecords marchDebits) ≠ [] ∧
      (getUserTransaction utcHost (pagedServer marchDebits) 1 1 "Credit" "3-2018").2
        = Outcome.returned [-1] :=
  ⟨by with_unfolding_all decide,
    getUserTransaction_no_requested_record utcHost (pagedServer marchDebits) 1 marchDebits
      (pagedServer_serves 1 marchDebits (by decide) (by decide)) 1 (by decide)
      "Credit" "3-2018" 3 2018 (by decide) (by rfl)
      (by unfold AmountsParse; with_unfolding_all decide)
      (by with_unfolding_all decide)⟩

set_option maxRecDepth 1000000 in
theorem getUserTransaction_no_requested_record_counterexample :
    ServesPages (pagedServer marchBadDebit) 1 marchBadDebit ∧
      (utcHost.toLower "credit" = credit ∨ utcHost.toLower "credit" = debit) ∧
      convertMonthYearToInt "3-2018" = Except.ok (3, 2018) ∧
      monthRecordsOfType utcHost credit 3 2018 (allRecords marchBadDebit) = [] ∧
      (getUserTransaction utcHost (pagedServer marchBadDebit) 1 1 "credit" "3-2018").2
        = Outcome.panicked (Fault.parseFloatError "/A") ∧
      ∀ fuel, (getUserTransaction utcHost (pagedServer marchBadDebit) fuel 1 "credit"
          "3-2018").2 ≠ Outcome.returned [-1] := by
  refine ⟨pagedServer_serves 1 marchBadDebit (by decide) (by decide), by decide, by rfl,
    by with_unfolding_all decide, by with_unfolding_all decide, ?_⟩
  intro fuel
  cases fuel with
  | zero => with_unfolding_all decide
  | succ n =>
    rw [getUserTransaction_serves utcHost (pagedServer marchBadDebit) 1 marchBadDebit
      (pagedServer_serves 1 marchBadDebit (by decide) (by decide)) (n + 1)
      (by simp [marchBadDebit]) "credit" "3-2018" 3 2018 (by decide) (by rfl)]
    with_unfolding_all decide

/-- C4, as amended: for records served over any number of pages and a valid
request, if the requested month contains no debit record, then, provided the
amounts of the month's records of the requested type parse, `getUserTransaction`
returns exactly `[-1]`, however many such records there are and whatever their
values, infinite ones included: the average is 0/0, a NaN, and no amount compares
greater than it. -/
theorem getUserTransaction_no_debit (host : Host) (srv : Server) (uid : Int)
    (pages : List UserTransactionResponse) (hs : ServesPages srv uid pages)
    (fuel : Nat) (hfuel : pages.length ≤ fuel) (txnType monthYear : String) (m y : Int)
    (hvalid : host.toLower txnType = credit ∨ host.toLower txnType = debit)
    (hmy : convertMonthYearToInt monthYear = Except.ok (m, y))
    (hnone : monthRecordsOfType host debit m y (allRecords pages) = [])
    (hr : AmountsParse host (host.toLower txnType) m y (allRecords pages)) :
    (getUserTransaction host srv fuel uid txnType monthYear).2 = Outcome.returned [-1] ∧
      Float64.div (Float64.zero) (Float64.ofInt 0) = Float64.nan ∧
      debitAverage host m y (allRecords pages) = Float64.nan ∧
      ∀ a : Float64, Float64.gt a (debitAverage host m y (allRecords pages)) = false := by
  have havg := debitAverage_nan host m y (allRecords pages) hnone
  have ha : aboveAverage host (host.toLower txnType) m y (allRecords pages) = [] := by
    unfold aboveAverage
    rw [havg]
    simp [gt_nan]
  refine ⟨?_, by decide, havg, fun a => by rw [havg]; exact gt_nan a⟩
  rw [getUserTransaction_serves host srv uid pages hs fuel hfuel txnType monthYear m y hvalid
    hmy, analyze_of_parse host _ m y _ (amountsParse_of_nil host _ m y _ hnone) hr, if_pos ha]

set_option maxRecDepth 1000000 in
theorem getUserTransaction_no_debit_witness :
    (monthRecordsOfType utcHost credit 3 2018 (allRecords marchCreditsOnly)).map
        (fun v => v.Amount) = ["$5.00", "$Inf"] ∧
      (getUserTransaction utcHost (pagedServer marchCreditsOnly) 1 1 "credit" "3-2018").2
        = Outcome.returned [-1] :=
  ⟨by with_unfolding_all decide,
    (getUserTransaction_no_debit utcHost (pagedServer marchCreditsOnly) 1 marchCreditsOnly
      (pagedServer_serves 1 marchCreditsOnly (by decide) (by decide)) 1 (by decide)
      "credit" "3-2018" 3 2018 (by decide) (by rfl)
      (by with_unfolding_all decide)
      (by unfold AmountsParse; with_unfolding_all decide)).1⟩

set_option maxRecDepth 1000000 in
theorem getUserTransaction_no_debit_counterexample :
    ServesPages (pagedServer marchCreditsOnlyBad) 1 marchCreditsOnlyBad ∧
      (utcHost.toLower "credit" = credit ∨ utcHost.toLower "credit" = debit) ∧
      convertMonthYearToInt "3-2018" = Except.ok (3, 2018) ∧
      monthRecordsOfType utcHost debit 3 2018 (allRecords marchCreditsOnlyBad) = [] ∧
      (getUserTransaction utcHost (pagedServer marchCreditsOnlyBad) 1 1 "credit" "3-2018").2
        = Outcome.panicked (Fault.parseFloatError "nknown") ∧
      ∀ fuel, (getUserTransaction utcHost (pagedServer marchCreditsOnlyBad) fuel 1 "credit"
          "3-2018").2 ≠ Outcome.returned [-1] := by
  refine ⟨pagedServer_serves 1 marchCreditsOnlyBad (by decide) (by decide), by decide, by rfl,
    by with_unfolding_all decide, by with_unfolding_all decide, ?_⟩
  intro fuel
  cases fuel with
  | zero => with_unfolding_all decide
  | succ n =>
    rw [getUserTransaction_serves utcHost (pagedServer marchCreditsOnlyBad) 1
      marchCreditsOnlyBad
      (pagedServer_serves 1 marchCreditsOnlyBad (by decide) (by decide)) (n + 1)
      (by simp [marchCreditsOnlyBad]) "credit" "3-2018" 3 2018 (by decide) (by rfl)]
    with_unfolding_all decide

/-- C5, as amended: when the requested type is credit, the debit count and sum
come from the debit records of the requested month alone. Provided the month has at
least one debit record and the amounts of the month's debit and credit records
parse, the result is made of the ids of the month's credit records whose amount
strictly exceeds the average of the month's debit amounts (`[-1]` when there is
none); and when the amount of one credit record is replaced by another amount that
parses, the average is the same and the records selected before and after the
changed record are the same in both runs. -/
theorem getUserTransaction_credit_against_debit_average (host : Host)
    (srv srvChanged : Server) (uid : Int) (pages pagesChanged : List UserTransactionResponse)
    (hs : ServesPages srv uid pages) (hsChanged : ServesPages srvChanged uid pagesChanged)
    (fuel fuelChanged : Nat) (hfuel : pages.length ≤ fuel)
    (hfuelChanged : pagesChanged.length ≤ fuelChanged)
    (txnType monthYear : String) (m y : Int)
    (hcredit : host.toLower txnType = credit)
    (hmy : convertMonthYearToInt monthYear = Except.ok (m, y))
    (pre post : List UserTransactionDataResponse) (v : UserTransactionDataResponse)
    (amount : String)
    (hsplit : allRecords pages = pre ++ v :: post)
    (hsplitChanged : allRecords pagesChanged = pre ++ { v with Amount := amount } :: post)
    (hv : host.toLower v.TxnType = credit)
    (_hsome : monthRecordsOfType host debit m y (allRecords pages) ≠ [])
    (hd : AmountsParse host debit m y (allRecords pages))
    (hr : AmountsParse host credit m y (allRecords pages))
    (hamount : amountParses amount = true) :
    (getUserTransaction host srv fuel uid txnType monthYear).2
        = Outcome.returned (idsOrMinusOne
            (aboveThreshold host credit m y (debitAverage host m y (allRecords pages)) pre
              ++ aboveThreshold host credit m y (debitAverage host m y (allRecords pages)) [v]
              ++ aboveThreshold host credit m y (debitAverage host m y (allRecords pages))
                  post)) ∧
      (getUserTransaction host srvChanged fuelChanged uid txnType monthYear).2
        = Outcome.returned (idsOrMinusOne
            (aboveThreshold host credit m y (debitAverage host m y (allRecords pages)) pre
              ++ aboveThreshold host credit m y (debitAverage host m y (allRecords pages))
                  [{ v with Amount := amount }]
              ++ aboveThreshold host credit m y (debitAverage host m y (allRecords pages))
                  post)) ∧
      debitAverage host m y (allRecords pagesChanged)
        = debitAverage host m y (allRecords pages) ∧
      ∀ (records : List UserTransactionDataResponse) (w : UserTransactionDataResponse),
        w ∈ aboveThreshold host credit m y (debitAverage host m y (allRecords pages)) records ↔
          w ∈ records ∧ inRequestedMonth host m y w = true ∧
            host.toLower w.TxnType = credit ∧
            Float64.gt (amountOf w) (debitAverage host m y (allRecords pages)) = true := by
  have hdebits : monthRecordsOfType host debit m y (allRecords pagesChanged)
      = monthRecordsOfType host debit m y (allRecords pages) := by
    rw [hsplit, hsplitChanged, monthDebits_replace_credit host m y pre post v amount hv]
  have havg : debitAverage host m y (allRecords pagesChanged)
      = debitAverage host m y (allRecords pages) := by
    unfold debitAverage
    rw [hdebits]
  have hdChanged : AmountsParse host debit m y (allRecords pagesChanged) := by
    intro w hw
    rw [hdebits] at hw
    exact hd w hw
  have hrChanged : AmountsParse host credit m y (allRecords pagesChanged) := by
    rw [hsplitChanged]
    rw [hsplit] at hr
    exact amountsParse_replace host credit m y pre post v amount hamount hr
  have habove : ∀ records : List UserTransactionDataResponse,
      aboveAverage host credit m y records
        = aboveThreshold host credit m y (debitAverage host m y records) records :=
    fun _ => rfl
  refine ⟨?_, ?_, havg, fun records w => mem_aboveThreshold host credit m y _ records w⟩
  · rw [getUserTransaction_serves host srv uid pages hs fuel hfuel txnType monthYear m y
      (Or.inl hcredit) hmy, hcredit, analyze_of_parse host _ m y _ hd hr, habove]
    conv_lhs => rw [hsplit, aboveThreshold_split, ← hsplit]
    rfl
  · rw [getUserTransaction_serves host srvChanged uid pagesChanged hsChanged fuelChanged
      hfuelChanged txnType monthYear m y (Or.inl hcredit) hmy, hcredit,
      analyze_of_parse host _ m y _ hdChanged hrChanged, habove, havg]
    conv_lhs => rw [hsplitChanged, aboveThreshold_split]
    rfl

set_option maxRecDepth 1000000 in
theorem getUserTransaction_credit_against_debit_average_witness :
    (getUserTransaction utcHost (pagedServer marchMixed) 1 1 "credit" "3-2018").2
        = Outcome.returned [2] ∧
      (getUserTransaction utcHost (pagedServer marchMixedRaised) 1 1 "credit" "3-2018").2
        = Outcome.returned [2, 3] :=
  have h := getUserTransaction_credit_against_debit_average utcHost (pagedServer marchMixed)
    (pagedServer marchMixedRaised) 1 marchMixed marchMixedRaised
    (pagedServer_serves 1 marchMixed (by decide) (by decide))
    (pagedServer_serves 1 marchMixedRaised (by decide) (by decide)) 1 1 (by decide) (by decide)
    "credit" "3-2018" 3 2018 (by decide) (by rfl)
    [sampleRecord 1 1520000000000 "debit" "$10.00",
     sampleRecord 2 1520000000000 "credit" "$100.00"]
    [] (sampleRecord 3 1522000000000 "credit" "$5.00") "$500.00"
    (by decide) (by decide) (by decide)
    (by with_unfolding_all decide)
    (by unfold AmountsParse; with_unfolding_all decide)
    (by unfold AmountsParse; with_unfolding_all decide)
    (by decide)
  ⟨h.1.trans (by with_unfolding_all decide), h.2.1.trans (by with_unfolding_all decide)⟩

set_option maxRecDepth 1000000 in
theorem getUserTransaction_credit_against_debit_average_counterexample :
    (allRecords marchMixed).map (fun v => (v.Id, v.Timestamp, v.TxnType))
        = (allRecords marchMixedBad).map (fun v => (v.Id, v.Timestamp, v.TxnType)) ∧
      (allRecords marchMixed).map (fun v => v.Amount) = ["$10.00", "$100.00", "$5.00"] ∧
      (allRecords marchMixedBad).map (fun v => v.Amount) = ["$10.00", "$100.00", "five"] ∧
      (getUserTransaction utcHost (pagedServer marchMixed) 1 1 "credit" "3-2018").2
        = Outcome.returned [2] ∧
      (getUserTransaction utcHost (pagedServer marchMixedBad) 1 1 "credit" "3-2018").2
        = Outcome.panicked (Fault.parseFloatError "ive") := by
  refine ⟨by decide, by decide, by decide, by with_unfolding_all decide,
    by with_unfolding_all decide⟩

/-- C6: filtering does not depend on page boundaries. For every list of pages
served by a server that answers the request without a page parameter with page 1
and the request for page `n` with page `n`, each response reporting `page = n` and
`total_pages = N`, and for a server that serves the same records as its single
page (`page = 1`, `total_pages = 1`), `getUserTransaction` ends in the same way on
both, a returned list or a panic, and its page loop terminates. -/
theorem getUserTransaction_page_split (host : Host) (srvPaged srvSingle : Server) (uid : Int)
    (pages : List UserTransactionResponse) (single : UserTransactionResponse)
    (hsPaged : ServesPages srvPaged uid pages) (hsSingle : ServesPages srvSingle uid [single])
    (hdata : single.Data = allRecords pages)
    (fuelPaged fuelSingle : Nat) (hfuelPaged : pages.length ≤ fuelPaged)
    (hfuelSingle : 1 ≤ fuelSingle) (txnType monthYear : String) :
    (getUserTransaction host srvPaged fuelPaged uid txnType monthYear).2
        = (getUserTransaction host srvSingle fuelSingle uid txnType monthYear).2 ∧
      (getUserTransaction host srvPaged fuelPaged uid txnType monthYear).2
        ≠ Outcome.outOfFuel := by
  by_cases hvalid : host.toLower txnType = credit ∨ host.toLower txnType = debit
  · cases hmy : convertMonthYearToInt monthYear with
    | error e =>
      rw [getUserTransaction_of_monthYear_error host srvPaged fuelPaged uid txnType monthYear e
        hvalid hmy, getUserTransaction_of_monthYear_error host srvSingle fuelSingle uid txnType
        monthYear e hvalid hmy]
      simp
    | ok my =>
      obtain ⟨m, y⟩ := my
      have hall : allRecords [single] = allRecords pages := by
        simp [allRecords, hdata]
      rw [getUserTransaction_serves host srvPaged uid pages hsPaged fuelPaged hfuelPaged
        txnType monthYear m y hvalid hmy, getUserTransaction_serves host srvSingle uid [single]
        hsSingle fuelSingle (by simpa using hfuelSingle) txnType monthYear m y hvalid hmy, hall]
      exact ⟨rfl, analyze_ne_outOfFuel host _ m y _⟩
  · have h1 : host.toLower txnType ≠ credit := fun h => hvalid (Or.inl h)
    have h2 : host.toLower txnType ≠ debit := fun h => hvalid (Or.inr h)
    rw [getUserTransaction_of_invalid host srvPaged fuelPaged uid txnType monthYear h1 h2,
      getUserTransaction_of_invalid host srvSingle fuelSingle uid txnType monthYear h1 h2]
    simp

set_option maxRecDepth 1000000 in
theorem getUserTransaction_page_split_witness :
    (threePages.map (fun r =>
        (monthRecordsOfType utcHost debit 3 2018 r.Data).map (fun v => v.Id)))
        = [[1], [], [4]] ∧
      (getUserTransaction utcHost (pagedServer threePages) 3 1 "debit" "3-2018").2
        = (getUserTransaction utcHost (pagedServer [singlePage (allRecords threePages)]) 1 1
            "debit" "3-2018").2 ∧
      (getUserTransaction utcHost (pagedServer threePages) 3 1 "debit" "3-2018").2
        = Outcome.returned [4] :=
  ⟨by with_unfolding_all decide,
    (getUserTransaction_page_split utcHost (pagedServer threePages)
      (pagedServer [singlePage (allRecords threePages)]) 1 threePages
      (singlePage (allRecords threePages))
      (pagedServer_serves 1 threePages (by decide) (by decide))
      (pagedServer_serves 1 [singlePage (allRecords threePages)] (by decide) (by decide))
      rfl 3 1 (by decide) (by decide) "debit" "3-2018").1,
    by with_unfolding_all decide⟩

/-- C7: against a server that serves `N >= 1` pages (the request without a page
parameter answered with page 1, the request for page `n` with page `n`, every
response reporting `total_pages = N`), a fresh retriever is created with exactly one
request, the one without a page parameter; its first `getNext` issues no request
and returns page 1; calling `getNext` until `hasNext` is false terminates, returns
the pages 1, ..., N in this order, hence after exactly `N` calls, and the requests
issued are the one without a page parameter followed by page=2, ..., page=N in
increasing order, none of them twice. -/
theorem drain_serves (srv : Server) (uid : Int) (pages : List UserTransactionResponse)
    (hs : ServesPages srv uid pages) (fuel : Nat) (hfuel : pages.length ≤ fuel)
    (apiEndpoint txnType monthYear : String) :
    ∃ u0 u1 u2 : userTransactionRetriever,
      initializeUserTransactionRetriever srv [] apiEndpoint uid txnType monthYear
          = ([{ uid := uid, page := none }], Except.ok u0) ∧
        u0.curPage = 0 ∧
        getNext srv [{ uid := uid, page := none }] u0
          = ([{ uid := uid, page := none }], Except.ok (pages.head?, u1)) ∧
        drain srv fuel [{ uid := uid, page := none }] u0
          = ({ uid := uid, page := none } :: requestsFor uid 2 (pages.length - 1),
              Outcome.returned (pages, u2)) ∧
        hasNext u2 = false ∧
        ({ uid := uid, page := none } :: requestsFor uid 2 (pages.length - 1)).Nodup := by
  obtain ⟨p, rest, rfl⟩ : ∃ p rest, pages = p :: rest := by
    cases pages with
    | nil => exact absurd rfl hs.nonempty
    | cons p rest => exact ⟨p, rest, rfl⟩
  have hfirst := hs.first []
  simp only [List.head?_cons] at hfirst
  obtain ⟨hp, ht, -⟩ := (numbered_cons _ _ _ _).1 hs.reports
  have hloop := forEachPage_serves srv uid (p :: rest) hs
    (fun acc response => Except.ok (acc ++ [response]))
    fuel [{ uid := uid, page := none }]
    { apiEndpoint := apiEndpoint, uid := uid, txnType := txnType,
      monthYear := monthYear, curPage := 0, cache := some p } [] rfl rfl rfl hfuel
  obtain ⟨u2, hu2, hdone⟩ := hloop.1 (p :: rest) (by rw [foldPages_collect]; rfl)
  refine ⟨{ apiEndpoint := apiEndpoint, uid := uid, txnType := txnType,
            monthYear := monthYear, curPage := 0, cache := some p },
          { apiEndpoint := apiEndpoint, uid := uid, txnType := txnType,
            monthYear := monthYear, curPage := 1, cache := some p }, u2, ?_, rfl, ?_, ?_,
          hdone, ?_⟩
  · simp [initializeUserTransactionRetriever, getRequest, hfirst]
  · have hn : hasNext
        { apiEndpoint := apiEndpoint, uid := uid, txnType := txnType,
          monthYear := monthYear, curPage := 0, cache := some p } = true := by
      simp only [hasNext, ht, decide_eq_true_eq, List.length_cons]
      push_cast
      omega
    simp [getNext, hn, hp]
  · rw [drain, hu2]
    rfl
  · rw [List.nodup_cons]
    refine ⟨?_, requestsFor_nodup uid _ _⟩
    intro hmem
    obtain ⟨j, hj, -⟩ := page_of_mem_requestsFor uid _ _ _ hmem
    simp at hj

theorem drain_serves_witness :
    ∃ u0 u1 u2 : userTransactionRetriever,
      initializeUserTransactionRetriever (pagedServer threePages) [] endpoint 1 "debit" "3-2018"
          = ([{ uid := 1, page := none }], Except.ok u0) ∧
        u0.curPage = 0 ∧
        getNext (pagedServer threePages) [{ uid := 1, page := none }] u0
          = ([{ uid := 1, page := none }], Except.ok (threePages.head?, u1)) ∧
        drain (pagedServer threePages) 3 [{ uid := 1, page := none }] u0
          = ([{ uid := 1, page := none }, { uid := 1, page := some 2 },
              { uid := 1, page := some 3 }], Outcome.returned (threePages, u2)) ∧
        hasNext u2 = false ∧
        ([{ uid := 1, page := none }, { uid := 1, page := some 2 },
          { uid := 1, page := some 3 }] : List Request).Nodup :=
  drain_serves (pagedServer threePages) 1 threePages
    (pagedServer_serves 1 threePages (by decide) (by decide)) 3 (by decide)
    endpoint "debit" "3-2018"

/-- C8, as amended: provided the response to the request without a page parameter
reports a `total_pages` of at least 0 and every response to a request for page `n`
reports a `total_pages` of at least `n` (as when all responses report the same
non-negative `total_pages`), in every retriever reached from
`initializeUserTransactionRetriever` by any number of `getNext` calls the cache is
not nil and `curPage` does not exceed `cache.TotalPages`. -/
theorem cursorAfter_curPage_le (srv : Server) (uid : Int) (txnType monthYear : String)
    (h0 : ∀ (log : List Request) (r : UserTransactionResponse),
      srv log { uid := uid, page := none } = some r → 0 ≤ r.TotalPages)
    (hn : ∀ (log : List Request) (n : Int) (r : UserTransactionResponse),
      srv log { uid := uid, page := some n } = some r → n ≤ r.TotalPages)
    (k : Nat) (log : List Request) (u : userTransactionRetriever)
    (hreach : cursorAfter srv uid txnType monthYear k = (log, Except.ok u)) :
    ∃ c, u.cache = some c ∧ u.curPage ≤ c.TotalPages := by
  unfold cursorAfter initializeUserTransactionRetriever getRequest at hreach
  cases hs : srv [] { uid := uid, page := none } with
  | none => simp [hs] at hreach
  | some r =>
    simp only [hs] at hreach
    exact getNextTimes_curPage_le srv uid hn k _ _ rfl ⟨r, rfl, h0 [] r hs⟩ log u hreach

theorem cursorAfter_curPage_le_witness :
    ∃ c, threePages.getLast? = some c ∧ (3 : Int) ≤ c.TotalPages :=
  cursorAfter_curPage_le (pagedServer threePages) 1 "debit" "3-2018"
    (pagedServer_totalPages 1 threePages (by decide)).1
    (pagedServer_totalPages 1 threePages (by decide)).2
    3 [{ uid := 1, page := none }, { uid := 1, page := some 2 }, { uid := 1, page := some 3 }]
    { apiEndpoint := endpoint, uid := 1, txnType := "debit", monthYear := "3-2018",
      curPage := 3, cache := threePages.getLast? }
    (by rfl)

theorem cursorAfter_curPage_le_counterexample :
    ∃ (u : userTransactionRetriever) (c : UserTransactionResponse),
      (cursorAfter shrinkingServer 1 "debit" "3-2018" 2).2 = Except.ok u ∧
        u.cache = some c ∧ u.curPage = 2 ∧ c.TotalPages = 1 ∧ c.TotalPages < u.curPage :=
  ⟨{ apiEndpoint := endpoint, uid := 1, txnType := "debit", monthYear := "3-2018",
     curPage := 2,
     cache := some { Page := 2, PerPage := 1, Total := 1, TotalPages := 1, Data := [] } },
   { Page := 2, PerPage := 1, Total := 1, TotalPages := 1, Data := [] },
   by rfl, rfl, rfl, rfl, by decide⟩

/-- C9: `hasNext` is true if and only if the cache is not nil and
`curPage < cache.TotalPages`; and when `hasNext` is false, `getNext` returns nil,
issues no request and leaves the retriever as it is, so that after any number of
further `getNext` calls the retriever, still exhausted, and the list of requests
are unchanged. -/
theorem hasNext_iff_and_exhausted (srv : Server) (log : List Request)
    (u : userTransactionRetriever) (n : Nat) :
    (hasNext u = true ↔ ∃ c, u.cache = some c ∧ u.curPage < c.TotalPages) ∧
      (hasNext u = false →
        getNext srv log u = (log, Except.ok (none, u)) ∧
          getNextTimes srv n log u = (log, Except.ok u)) := by
  refine ⟨?_, fun h => ⟨getNext_of_exhausted srv log u h,
    getNextTimes_of_exhausted srv u h n log⟩⟩
  unfold hasNext
  cases u.cache with
  | none => simp
  | some c => simp

theorem hasNext_iff_and_exhausted_witness :
    hasNext { apiEndpoint := endpoint, uid := 1, txnType := "debit", monthYear := "3-2018",
              curPage := 1, cache := marchDebits.head? } = false ∧
      getNext shrinkingServer [{ uid := 1, page := none }]
          { apiEndpoint := endpoint, uid := 1, txnType := "debit", monthYear := "3-2018",
            curPage := 1, cache := marchDebits.head? }
        = ([{ uid := 1, page := none }],
            Except.ok (none,
              { apiEndpoint := endpoint, uid := 1, txnType := "debit", monthYear := "3-2018",
                curPage := 1, cache := marchDebits.head? })) ∧
      getNextTimes shrinkingServer 5 [{ uid := 1, page := none }]
          { apiEndpoint := endpoint, uid := 1, txnType := "debit", monthYear := "3-2018",
            curPage := 1, cache := marchDebits.head? }
        = ([{ uid := 1, page := none }],
            Except.ok
              { apiEndpoint := endpoint, uid := 1, txnType := "debit", monthYear := "3-2018",
                curPage := 1, cache := marchDebits.head? }) :=
  ⟨by decide,
    (hasNext_iff_and_exhausted shrinkingServer [{ uid := 1, page := none }]
      { apiEndpoint := endpoint, uid := 1, txnType := "debit", monthYear := "3-2018",
        curPage := 1, cache := marchDebits.head? } 5).2 (by decide)⟩

/-- C10, as amended: for every valid txnType, `getUserTransaction` fails on the
monthYear before any request is issued exactly when monthYear, cut at its dashes,
has fewer than two fields or a first or second field that `strconv.Atoi` rejects
(an optional sign and decimal digits within the int range are accepted): it then
panics with no request issued, and otherwise it issues at least the first request.
A month with a leading zero, a year that does not have four digits, a month outside
1 to 12 and further fields after a second dash are all accepted. -/
theorem getUserTransaction_monthYear_rejected (host : Host) (srv : Server) (fuel : Nat)
    (uid : Int) (txnType monthYear : String)
    (hvalid : host.toLower txnType = credit ∨ host.toLower txnType = debit) :
    ((∀ a b rest, splitDash monthYear = a :: b :: rest → atoi a = none ∨ atoi b = none) →
        ∃ e, getUserTransaction host srv fuel uid txnType monthYear
          = ([], Outcome.panicked e)) ∧
      ((∃ a b rest, splitDash monthYear = a :: b :: rest ∧ atoi a ≠ none ∧ atoi b ≠ none) →
        (getUserTransaction host srv fuel uid txnType monthYear).1 ≠ []) := by
  refine ⟨?_, ?_⟩
  · intro h
    have herr : ∃ e, convertMonthYearToInt monthYear = Except.error e := by
      cases hsp : splitDash monthYear with
      | nil => exact ⟨Fault.outOfRange, by simp [convertMonthYearToInt, hsp]⟩
      | cons a rest =>
        cases ha : atoi a with
        | none => exact ⟨Fault.atoiError a, by simp [convertMonthYearToInt, hsp, ha]⟩
        | some mm =>
          cases rest with
          | nil => exact ⟨Fault.outOfRange, by simp [convertMonthYearToInt, hsp, ha]⟩
          | cons b rest2 =>
            rcases h a b rest2 hsp with h1 | h1
            · rw [ha] at h1
              exact Option.noConfusion h1
            · exact ⟨Fault.atoiError b, by simp [convertMonthYearToInt, hsp, ha, h1]⟩
    obtain ⟨e, he⟩ := herr
    exact ⟨e, getUserTransaction_of_monthYear_error host srv fuel uid txnType monthYear e
      hvalid he⟩
  · rintro ⟨a, b, rest, hsp, ha, hb⟩
    obtain ⟨mm, hmm⟩ := Option.ne_none_iff_exists'.1 ha
    obtain ⟨yy, hyy⟩ := Option.ne_none_iff_exists'.1 hb
    have hmy : convertMonthYearToInt monthYear = Except.ok (mm, yy) := by
      simp [convertMonthYearToInt, hsp, hmm, hyy]
    have hv : ¬ (host.toLower txnType ≠ credit ∧ host.toLower txnType ≠ debit) := by
      rcases hvalid with h | h <;> simp [h]
    simp only [getUserTransaction, hv, if_false, hmy, initializeUserTransactionRetriever,
      getRequest]
    cases srv [] { uid := uid, page := none } with
    | none => simp
    | some r =>
      simp only []
      obtain ⟨l, hl⟩ := forEachPage_log srv
        (fun t response => tallyRecords host (host.toLower txnType) mm yy t response.Data)
        fuel ([] ++ [{ uid := uid, page := none }])
        { apiEndpoint := endpoint, uid := uid, txnType := host.toLower txnType,
          monthYear := monthYear, curPage := 0, cache := some r } {}
      revert hl
      generalize forEachPage srv
        (fun t response => tallyRecords host (host.toLower txnType) mm yy t response.Data)
        fuel ([] ++ [{ uid := uid, page := none }])
        { apiEndpoint := endpoint, uid := uid, txnType := host.toLower txnType,
          monthYear := monthYear, curPage := 0, cache := some r } {} = res
      intro hl
      obtain ⟨log1, out⟩ := res
      simp only at hl
      subst hl
      cases out with
      | returned a => obtain ⟨t, u1⟩ := a; simp
      | panicked e => simp
      | outOfFuel => simp

set_option maxRecDepth 1000000 in
theorem getUserTransaction_monthYear_rejected_witness :
    (∃ e, getUserTransaction utcHost (pagedServer marchDebits) 1 1 "debit" "March 2018"
        = ([], Outcome.panicked e)) ∧
      (∃ e, getUserTransaction utcHost (pagedServer marchDebits) 1 1 "debit" "3-20x8"
        = ([], Outcome.panicked e)) ∧
      (getUserTransaction utcHost (pagedServer marchDebits) 1 1 "debit" "3-2018-x").1 ≠ [] :=
  ⟨(getUserTransaction_monthYear_rejected utcHost (pagedServer marchDebits) 1 1 "debit"
      "March 2018" (by decide)).1 (by
        intro a b rest h
        have h2 : splitDash "March 2018" = ["March 2018"] := by decide
        rw [h2] at h
        simp at h),
    (getUserTransaction_monthYear_rejected utcHost (pagedServer marchDebits) 1 1 "debit"
      "3-20x8" (by decide)).1 (by
        intro a b rest h
        have h2 : splitDash "3-20x8" = ["3", "20x8"] := by decide
        rw [h2] at h
        simp only [List.cons.injEq] at h
        obtain ⟨-, rfl, -⟩ := h
        exact Or.inr (by decide)),
    (getUserTransaction_monthYear_rejected utcHost (pagedServer marchDebits) 1 1 "debit"
      "3-2018-x" (by decide)).2 ⟨"3", "2018", ["x"], by decide, by decide, by decide⟩⟩

set_option maxRecDepth 1000000 in
theorem getUserTransaction_monthYear_rejected_counterexample :
    (utcHost.toLower "debit" = credit ∨ utcHost.toLower "debit" = debit) ∧
      "03-2018".data = ['0', '3', '-', '2', '0', '1', '8'] ∧
      getUserTransaction utcHost (pagedServer marchDebits) 1 1 "debit" "03-2018"
        = ([{ uid := 1, page := none }], Outcome.returned [3]) ∧
      getUserTransaction utcHost (pagedServer marchDebits) 1 1 "debit" "3-2018-x"
        = ([{ uid := 1, page := none }], Outcome.returned [3]) := by
  refine ⟨by decide, by decide, by with_unfolding_all decide, by with_unfolding_all decide⟩

/-! ## runs that end alike -/

theorem getUserTransaction_outcome_congr (host : Host) (srvA srvB : Server) (uid : Int)
    (pagesA pagesB : List UserTransactionResponse)
    (hsA : ServesPages srvA uid pagesA) (hsB : ServesPages srvB uid pagesB)
    (fuelA fuelB : Nat) (hfuelA : pagesA.length ≤ fuelA) (hfuelB : pagesB.length ≤ fuelB)
    (txnType monthYear : String)
    (h : ∀ m y, convertMonthYearToInt monthYear = Except.ok (m, y) →
      analyze host (host.toLower txnType) m y (allRecords pagesA)
        = analyze host (host.toLower txnType) m y (allRecords pagesB)) :
    (getUserTransaction host srvA fuelA uid txnType monthYear).2
        = (getUserTransaction host srvB fuelB uid txnType monthYear).2 ∧
      (getUserTransaction host srvA fuelA uid txnType monthYear).2 ≠ Outcome.outOfFuel := by
  by_cases hvalid : host.toLower txnType = credit ∨ host.toLower txnType = debit
  · cases hmy : convertMonthYearToInt monthYear with
    | error e =>
      rw [getUserTransaction_of_monthYear_error host srvA fuelA uid txnType monthYear e
        hvalid hmy, getUserTransaction_of_monthYear_error host srvB fuelB uid txnType
        monthYear e hvalid hmy]
      simp
    | ok my =>
      obtain ⟨m, y⟩ := my
      rw [getUserTransaction_serves host srvA uid pagesA hsA fuelA hfuelA txnType monthYear
        m y hvalid hmy, getUserTransaction_serves host srvB uid pagesB hsB fuelB hfuelB
        txnType monthYear m y hvalid hmy, h m y hmy]
      exact ⟨rfl, analyze_ne_outOfFuel host _ m y _⟩
  · have h1 : host.toLower txnType ≠ credit := fun h => hvalid (Or.inl h)
    have h2 : host.toLower txnType ≠ debit := fun h => hvalid (Or.inr h)
    rw [getUserTransaction_of_invalid host srvA fuelA uid txnType monthYear h1 h2,
      getUserTransaction_of_invalid host srvB fuelB uid txnType monthYear h1 h2]
    simp

theorem tallyRecord_rel (host : Host) (txnType : String) (m y : Int) (a b : Tally)
    (v w : UserTransactionDataResponse) (hab : TallyRel host a b)
    (hvw : SameUpToCase host v w) :
    ResultRel host (tallyRecord host txnType m y a v) (tallyRecord host txnType m y b w) := by
  obtain ⟨hc, hs, hr⟩ := hab
  have hvw2 := hvw
  obtain ⟨hl, hw⟩ := hvw
  have hts : w.Timestamp = v.Timestamp := by rw [hw]
  have ham : w.Amount = v.Amount := by rw [hw]
  have hin : inRequestedMonth host m y w = inRequestedMonth host m y v := by
    simp only [inRequestedMonth, hts]
  unfold tallyRecord
  rw [hin, ← hl, ham]
  by_cases hm : inRequestedMonth host m y v = true
  · rw [if_pos hm, if_pos hm]
    by_cases hd : host.toLower v.TxnType = debit
    · rw [if_pos hd, if_pos hd]
      cases convertAmountToFloat v.Amount with
      | error e => exact rfl
      | ok x =>
        by_cases hq : host.toLower v.TxnType = txnType
        · simp only [if_pos hq]
          exact ⟨by simp [hc], by simp [hs], List.rel_append hr (List.Forall₂.cons hvw2
            List.Forall₂.nil)⟩
        · simp only [if_neg hq]
          exact ⟨by simp [hc], by simp [hs], hr⟩
    · rw [if_neg hd, if_neg hd]
      by_cases hq : host.toLower v.TxnType = txnType
      · simp only [if_pos hq]
        exact ⟨hc, hs, List.rel_append hr (List.Forall₂.cons hvw2 List.Forall₂.nil)⟩
      · simp only [if_neg hq]
        exact ⟨hc, hs, hr⟩
  · rw [if_neg hm, if_neg hm]
    exact ⟨hc, hs, hr⟩

theorem tallyRecords_rel (host : Host) (txnType : String) (m y : Int)
    (xs ys : List UserTransactionDataResponse)
    (hxy : List.Forall₂ (SameUpToCase host) xs ys) :
    ∀ a b : Tally, TallyRel host a b →
      ResultRel host (tallyRecords host txnType m y a xs)
        (tallyRecords host txnType m y b ys) := by
  induction hxy with
  | nil =>
    intro a b hab
    rw [tallyRecords, tallyRecords]
    exact hab
  | cons hvw _ ih =>
    intro a b hab
    rw [tallyRecords_cons, tallyRecords_cons]
    have h1 := tallyRecord_rel host txnType m y a b _ _ hab hvw
    revert h1
    generalize tallyRecord host txnType m y a _ = ra
    generalize tallyRecord host txnType m y b _ = rb
    intro h1
    cases ra with
    | error e =>
      cases rb with
      | error f => exact h1
      | ok b1 => exact h1.elim
    | ok a1 =>
      cases rb with
      | error f => exact h1.elim
      | ok b1 => exact ih a1 b1 h1

theorem selectAnswers_rel (host : Host) (average : Float64)
    (xs ys : List UserTransactionDataResponse)
    (hxy : List.Forall₂ (SameUpToCase host) xs ys) :
    ∀ answers : List Int, selectAnswers average xs answers = selectAnswers average ys answers := by
  induction hxy with
  | nil =>
    intro answers
    rfl
  | @cons v w vs ws hvw _ ih =>
    intro answers
    have ham : w.Amount = v.Amount := by rw [hvw.2]
    have hid : w.Id = v.Id := by rw [hvw.2]
    simp only [selectAnswers, ham, hid]
    cases convertAmountToFloat v.Amount with
    | error e => rfl
    | ok x =>
      simp only []
      split
      · exact ih _
      · exact ih _

theorem finish_rel (host : Host) (a b : Tally) (hab : TallyRel host a b) :
    finish a = finish b := by
  obtain ⟨hc, hs, hr⟩ := hab
  simp only [finish, hc, hs, hr.length_eq, selectAnswers_rel host _ _ _ hr]

theorem analyze_rel (host : Host) (txnType : String) (m y : Int)
    (xs ys : List UserTransactionDataResponse)
    (hxy : List.Forall₂ (SameUpToCase host) xs ys) :
    analyze host txnType m y xs = analyze host txnType m y ys := by
  have h := tallyRecords_rel host txnType m y xs ys hxy {} {} ⟨rfl, rfl, List.Forall₂.nil⟩
  unfold analyze
  revert h
  generalize tallyRecords host txnType m y {} xs = ra
  generalize tallyRecords host txnType m y {} ys = rb
  intro h
  cases ra with
  | error e =>
    cases rb with
    | error f =>
      have hef : e = f := h
      rw [hef]
    | ok b1 => exact h.elim
  | ok a1 =>
    cases rb with
    | error f => exact h.elim
    | ok b1 => exact finish_rel host a1 b1 h

theorem toNat_ofNat_small (n : Nat) (h : n < 55296) : (Char.ofNat n).toNat = n := by
  have hv : n.isValidChar := Or.inl h
  simp only [Char.ofNat, hv, dite_true]
  rfl

theorem lowerASCII_idem (c : Char) : lowerASCII (lowerASCII c) = lowerASCII c := by
  by_cases h : (decide (65 ≤ c.toNat) && decide (c.toNat ≤ 90)) = true
  · have h2 := h
    simp only [Bool.and_eq_true, decide_eq_true_eq] at h2
    have hv : (Char.ofNat (c.toNat + 32)).toNat = c.toNat + 32 :=
      toNat_ofNat_small _ (by omega)
    have hn : ¬ ((decide (65 ≤ (Char.ofNat (c.toNat + 32)).toNat) &&
        decide ((Char.ofNat (c.toNat + 32)).toNat ≤ 90)) = true) := by
      simp only [Bool.and_eq_true, decide_eq_true_eq, hv]
      omega
    simp only [lowerASCII, if_pos h, if_neg hn]
  · simp only [lowerASCII, if_neg h]

theorem utcHost_toLower_idem (s : String) :
    utcHost.toLower (utcHost.toLower s) = utcHost.toLower s := by
  simp only [utcHost, List.map_map]
  congr 1
  apply List.map_congr_left
  intro c _
  exact lowerASCII_idem c

/-! ## the claims on case, months, amounts and the shape of the result -/

/-- C11: the requested txnType is case-insensitive. For a lower-casing that leaves
lower-cased text unchanged, as `strings.ToLower` does, `getUserTransaction` called
with `t` and called with the lower-cased `t` issue the same requests and end in the
same way (the same list or the same panic), whatever the server, uid and monthYear;
and respelling the type of any records of the dataset in another case of the same
word leaves the way the call ends unchanged. -/
theorem getUserTransaction_case_insensitive (host : Host) (txnType : String)
    (hlower : host.toLower (host.toLower txnType) = host.toLower txnType) :
    (∀ (srv : Server) (fuel : Nat) (uid : Int) (monthYear : String),
      getUserTransaction host srv fuel uid txnType monthYear
        = getUserTransaction host srv fuel uid (host.toLower txnType) monthYear) ∧
    (∀ (srv srvRespelled : Server) (uid : Int)
      (pages pagesRespelled : List UserTransactionResponse) (fuel fuelRespelled : Nat)
      (monthYear : String),
      ServesPages srv uid pages → ServesPages srvRespelled uid pagesRespelled →
      pages.length ≤ fuel → pagesRespelled.length ≤ fuelRespelled →
      List.Forall₂ (SameUpToCase host) (allRecords pages) (allRecords pagesRespelled) →
      (getUserTransaction host srv fuel uid txnType monthYear).2
          = (getUserTransaction host srvRespelled fuelRespelled uid txnType monthYear).2 ∧
        (getUserTransaction host srv fuel uid txnType monthYear).2 ≠ Outcome.outOfFuel) := by
  refine ⟨?_, ?_⟩
  · intro srv fuel uid monthYear
    simp only [getUserTransaction, hlower]
  · intro srv srvRespelled uid pages pagesRespelled fuel fuelRespelled monthYear hs hsR hf hfR
      hrel
    exact getUserTransaction_outcome_congr host srv srvRespelled uid pages pagesRespelled hs hsR
      fuel fuelRespelled hf hfR txnType monthYear
      (fun m y _ => analyze_rel host _ m y _ _ hrel)

set_option maxRecDepth 1000000 in
theorem getUserTransaction_case_insensitive_witness :
    getUserTransaction utcHost (pagedServer marchDebits) 1 1 "DEBIT" "3-2018"
        = getUserTransaction utcHost (pagedServer marchDebits) 1 1 "debit" "3-2018" ∧
      getUserTransaction utcHost (pagedServer marchDebits) 1 1 "Debit" "3-2018"
        = ([{ uid := 1, page := none }], Outcome.returned [3]) ∧
      (getUserTransaction utcHost (pagedServer marchDebits) 1 1 "DEBIT" "3-2018").2
        = (getUserTransaction utcHost (pagedServer marchDebitsRespelled) 1 1 "DEBIT"
            "3-2018").2 :=
  ⟨(getUserTransaction_case_insensitive utcHost "DEBIT" (utcHost_toLower_idem "DEBIT")).1
      (pagedServer marchDebits) 1 1 "3-2018",
    by with_unfolding_all decide,
    ((getUserTransaction_case_insensitive utcHost "DEBIT" (utcHost_toLower_idem "DEBIT")).2
      (pagedServer marchDebits) (pagedServer marchDebitsRespelled) 1 marchDebits
      marchDebitsRespelled 1 1 "3-2018"
      (pagedServer_serves 1 marchDebits (by decide) (by decide))
      (pagedServer_serves 1 marchDebitsRespelled (by decide) (by decide))
      (by decide) (by decide)
      (List.Forall₂.cons ⟨by decide, by decide⟩
        (List.Forall₂.cons ⟨by decide, by decide⟩
          (List.Forall₂.cons ⟨by decide, by decide⟩ List.Forall₂.nil)))).1⟩

theorem tallyRecord_of_other_month (host : Host) (txnType : String) (m y : Int) (t : Tally)
    (v : UserTransactionDataResponse) (h : inRequestedMonth host m y v = false) :
    tallyRecord host txnType m y t v = Except.ok t := by
  unfold tallyRecord
  rw [if_neg (by rw [h]; exact Bool.false_ne_true)]

theorem tallyRecords_filter (host : Host) (txnType : String) (m y : Int) :
    ∀ (records : List UserTransactionDataResponse) (t : Tally),
      tallyRecords host txnType m y t records
        = tallyRecords host txnType m y t (records.filter (inRequestedMonth host m y)) := by
  intro records
  induction records with
  | nil =>
    intro t
    rfl
  | cons v vs ih =>
    intro t
    by_cases hm : inRequestedMonth host m y v = true
    · rw [List.filter_cons_of_pos hm, tallyRecords_cons, tallyRecords_cons]
      generalize tallyRecord host txnType m y t v = res
      cases res with
      | error e => rfl
      | ok t1 => exact ih t1
    · have hf : inRequestedMonth host m y v = false := by simpa using hm
      rw [List.filter_cons_of_neg hm, tallyRecords_cons,
        tallyRecord_of_other_month host txnType m y t v hf]
      exact ih t

theorem analyze_filter (host : Host) (txnType : String) (m y : Int)
    (records : List UserTransactionDataResponse) :
    analyze host txnType m y records
      = analyze host txnType m y (records.filter (inRequestedMonth host m y)) := by
  unfold analyze
  rw [tallyRecords_filter]

/-- C12: records outside the requested month and year are discarded entirely. Two
datasets, each served over any number of pages, whose records of the requested
month and year are the same in the same order (so that one is obtained from the
other by inserting, removing or altering records of other months, at any position
on any page) make `getUserTransaction` end in the same way; a record of another
month leaves the debit count, the debit sum and the candidates as they are, and its
amount is not even parsed. -/
theorem getUserTransaction_other_months_discarded (host : Host) (srv srvOther : Server)
    (uid : Int) (pages pagesOther : List UserTransactionResponse)
    (hs : ServesPages srv uid pages) (hsOther : ServesPages srvOther uid pagesOther)
    (fuel fuelOther : Nat) (hfuel : pages.length ≤ fuel)
    (hfuelOther : pagesOther.length ≤ fuelOther) (txnType monthYear : String)
    (hsame : ∀ m y, convertMonthYearToInt monthYear = Except.ok (m, y) →
      (allRecords pages).filter (inRequestedMonth host m y)
        = (allRecords pagesOther).filter (inRequestedMonth host m y)) :
    (getUserTransaction host srv fuel uid txnType monthYear).2
        = (getUserTransaction host srvOther fuelOther uid txnType monthYear).2 ∧
      (getUserTransaction host srv fuel uid txnType monthYear).2 ≠ Outcome.outOfFuel ∧
      ∀ (m y : Int) (t : Tally) (v : UserTransactionDataResponse),
        inRequestedMonth host m y v = false →
        tallyRecord host (host.toLower txnType) m y t v = Except.ok t := by
  have h := getUserTransaction_outcome_congr host srv srvOther uid pages pagesOther hs hsOther
    fuel fuelOther hfuel hfuelOther txnType monthYear (fun m y hmy => by
      rw [analyze_filter host _ m y (allRecords pages),
        analyze_filter host _ m y (allRecords pagesOther), hsame m y hmy])
  exact ⟨h.1, h.2, fun m y t v hv => tallyRecord_of_other_month host _ m y t v hv⟩

theorem getUserTransaction_other_months_discarded_witness :
    (allRecords marchDebitsAmongOthers).map (fun v => v.Id) = [8, 1, 2, 9, 3] ∧
      (getUserTransaction utcHost (pagedServer marchDebits) 1 1 "debit" "3-2018").2
        = (getUserTransaction utcHost (pagedServer marchDebitsAmongOthers) 2 1 "debit"
            "3-2018").2 ∧
      (getUserTransaction utcHost (pagedServer marchDebitsAmongOthers) 2 1 "debit"
          "3-2018").2 = Outcome.returned [3] :=
  ⟨by decide,
    (getUserTransaction_other_months_discarded utcHost (pagedServer marchDebits)
      (pagedServer marchDebitsAmongOthers) 1 marchDebits marchDebitsAmongOthers
      (pagedServer_serves 1 marchDebits (by decide) (by decide))
      (pagedServer_serves 1 marchDebitsAmongOthers (by decide) (by decide))
      1 2 (by decide) (by decide) "debit" "3-2018"
      (fun m y hmy => by
        have h2 : convertMonthYearToInt "3-2018" = Except.ok (3, 2018) := rfl
        rw [h2] at hmy
        cases hmy
        decide!)).1,
    by decide!⟩

theorem tallyRecord_requested (host : Host) (txnType : String) (m y : Int) (t t1 : Tally)
    (v : UserTransactionDataResponse)
    (h : tallyRecord host txnType m y t v = Except.ok t1) :
    t1.requestedTransactions
      = t.requestedTransactions ++ monthRecordsOfType host txnType m y [v] := by
  have e0 : ∀ tt, monthRecordsOfType host tt m y [] = [] := fun _ => rfl
  have e2 := monthRecordsOfType_cons host txnType m y v []
  rw [e0] at e2
  rw [e2]
  unfold tallyRecord at h
  by_cases hm : inRequestedMonth host m y v = true
  · rw [if_pos hm] at h
    by_cases hq : host.toLower v.TxnType = txnType
    · rw [if_pos ⟨hm, hq⟩]
      simp only [if_pos hq] at h
      split at h
      · exact Except.noConfusion h
      · rename_i t2 hstep
        simp only [Except.ok.injEq] at h
        subst h
        simp only [List.append_cancel_right_eq]
        split at hstep
        · split at hstep
          · exact Except.noConfusion hstep
          · simp only [Except.ok.injEq] at hstep
            subst hstep
            rfl
        · simp only [Except.ok.injEq] at hstep
          subst hstep
          rfl
    · rw [if_neg (fun h => hq h.2)]
      simp only [if_neg hq] at h
      split at h
      · exact Except.noConfusion h
      · rename_i t2 hstep
        simp only [Except.ok.injEq] at h
        subst h
        simp only [List.append_nil]
        split at hstep
        · split at hstep
          · exact Except.noConfusion hstep
          · simp only [Except.ok.injEq] at hstep
            subst hstep
            rfl
        · simp only [Except.ok.injEq] at hstep
          subst hstep
          rfl
  · rw [if_neg hm] at h
    rw [if_neg (fun h => hm h.1)]
    simp only [Except.ok.injEq] at h
    subst h
    simp

theorem tallyRecords_requested (host : Host) (txnType : String) (m y : Int) :
    ∀ (records : List UserTransactionDataResponse) (t t1 : Tally),
      tallyRecords host txnType m y t records = Except.ok t1 →
      t1.requestedTransactions
        = t.requestedTransactions ++ monthRecordsOfType host txnType m y records := by
  intro records
  induction records with
  | nil =>
    intro t t1 h
    rw [tallyRecords] at h
    simp only [Except.ok.injEq] at h
    subst h
    have e0 : monthRecordsOfType host txnType m y [] = [] := rfl
    rw [e0, List.append_nil]
  | cons v vs ih =>
    intro t t1 h
    rw [tallyRecords_cons] at h
    cases hr : tallyRecord host txnType m y t v with
    | error e =>
      rw [hr] at h
      exact Except.noConfusion h
    | ok t2 =>
      rw [hr] at h
      have h1 := tallyRecord_requested host txnType m y t t2 v hr
      have h2 := ih t2 t1 h
      have hsplit : monthRecordsOfType host txnType m y (v :: vs)
          = monthRecordsOfType host txnType m y [v] ++ monthRecordsOfType host txnType m y vs := by
        rw [← monthRecordsOfType_append]
        rfl
      rw [h2, h1, hsplit, List.append_assoc]

theorem selectAnswers_mem (average : Float64) :
    ∀ (cands : List UserTransactionDataResponse) (answers l : List Int),
      selectAnswers average cands answers = Except.ok l →
      ∀ id ∈ l, id ∈ answers ∨ ∃ v ∈ cands, v.Id = id := by
  intro cands
  induction cands with
  | nil =>
    intro answers l h id hid
    rw [selectAnswers] at h
    simp only [Except.ok.injEq] at h
    subst h
    exact Or.inl hid
  | cons v vs ih =>
    intro answers l h id hid
    rw [selectAnswers] at h
    split at h
    · exact Except.noConfusion h
    · split at h
      · rcases ih _ l h id hid with h1 | ⟨w, hw, hwid⟩
        · rcases List.mem_append.1 h1 with h2 | h2
          · exact Or.inl h2
          · simp only [List.mem_singleton] at h2
            exact Or.inr ⟨v, List.mem_cons_self _ _, h2.symm⟩
        · exact Or.inr ⟨w, List.mem_cons_of_mem _ hw, hwid⟩
      · rcases ih _ l h id hid with h1 | ⟨w, hw, hwid⟩
        · exact Or.inl h1
        · exact Or.inr ⟨w, List.mem_cons_of_mem _ hw, hwid⟩

theorem finish_returned (t : Tally) (l : List Int) (h : finish t = Outcome.returned l) :
    l = [-1] ∨ (l ≠ [] ∧ ∀ id ∈ l, ∃ v ∈ t.requestedTransactions, v.Id = id) := by
  unfold finish at h
  simp only at h
  split at h
  · simp only [Outcome.returned.injEq] at h
    exact Or.inl h.symm
  · split at h
    · exact Outcome.noConfusion h
    · rename_i answers hsel
      split at h
      · simp only [Outcome.returned.injEq] at h
        exact Or.inl h.symm
      · rename_i hlen
        simp only [Outcome.returned.injEq] at h
        subst h
        refine Or.inr ⟨fun hnil => hlen (by rw [hnil]; rfl), ?_⟩
        intro id hid
        rcases selectAnswers_mem _ _ _ _ hsel id hid with h1 | h1
        · simp at h1
        · exact h1

theorem getUserTransaction_returned (host : Host) (srv : Server) (fuel : Nat) (uid : Int)
    (txnType monthYear : String) (l : List Int)
    (h : (getUserTransaction host srv fuel uid txnType monthYear).2 = Outcome.returned l) :
    ∃ t, finish t = Outcome.returned l := by
  unfold getUserTransaction at h
  simp only at h
  split at h
  · exact Outcome.noConfusion h
  · split at h
    · exact Outcome.noConfusion h
    · split at h
      · exact Outcome.noConfusion h
      · split at h
        · exact Outcome.noConfusion h
        · exact Outcome.noConfusion h
        · rename_i t _ _
          exact ⟨t, h⟩

/-- C16: whenever `getUserTransaction` returns, whatever the server, the returned
list is not empty; and on a dataset served over any number of pages it is either
`[-1]` or a non-empty list each element of which is the id of a record of the
dataset that lies in the requested month and year and has, case-insensitively, the
requested type. -/
theorem getUserTransaction_result_shape (host : Host) (srv : Server) (fuel : Nat) (uid : Int)
    (txnType monthYear : String) (l : List Int)
    (hret : (getUserTransaction host srv fuel uid txnType monthYear).2 = Outcome.returned l) :
    l ≠ [] ∧
      ∀ (pages : List UserTransactionResponse) (m y : Int), ServesPages srv uid pages →
        pages.length ≤ fuel → convertMonthYearToInt monthYear = Except.ok (m, y) →
        l = [-1] ∨
          ∀ id ∈ l, ∃ v ∈ allRecords pages, v.Id = id ∧
            inRequestedMonth host m y v = true ∧
            host.toLower v.TxnType = host.toLower txnType := by
  refine ⟨?_, ?_⟩
  · obtain ⟨t, ht⟩ := getUserTransaction_returned host srv fuel uid txnType monthYear l hret
    rcases finish_returned t l ht with h | h
    · rw [h]
      simp
    · exact h.1
  · intro pages m y hs hfuel hmy
    have hvalid : host.toLower txnType = credit ∨ host.toLower txnType = debit := by
      by_contra hv
      rw [getUserTransaction_of_invalid host srv fuel uid txnType monthYear
        (fun h => hv (Or.inl h)) (fun h => hv (Or.inr h))] at hret
      exact Outcome.noConfusion hret
    rw [getUserTransaction_serves host srv uid pages hs fuel hfuel txnType monthYear m y hvalid
      hmy] at hret
    unfold analyze at hret
    cases ht : tallyRecords host (host.toLower txnType) m y {} (allRecords pages) with
    | error e =>
      rw [ht] at hret
      exact Outcome.noConfusion hret
    | ok t =>
      rw [ht] at hret
      have hreq := tallyRecords_requested host _ m y _ _ t ht
      simp only [List.nil_append] at hreq
      rcases finish_returned t l hret with h | h
      · exact Or.inl h
      · refine Or.inr ?_
        intro id hid
        obtain ⟨v, hv, hvid⟩ := h.2 id hid
        rw [hreq, mem_monthRecordsOfType] at hv
        exact ⟨v, hv.1, hvid, hv.2.1, hv.2.2⟩

set_option maxRecDepth 1000000 in
theorem getUserTransaction_result_shape_witness :
    ([3] : List Int) ≠ [] ∧
      (([3] : List Int) = [-1] ∨
        ∀ id ∈ ([3] : List Int), ∃ v ∈ allRecords marchDebits, v.Id = id ∧
          inRequestedMonth utcHost 3 2018 v = true ∧
          utcHost.toLower v.TxnType = utcHost.toLower "Debit") :=
  have h := getUserTransaction_result_shape utcHost (pagedServer marchDebits) 1 1 "Debit"
    "3-2018" [3] (by with_unfolding_all decide)
  ⟨h.1, h.2 marchDebits 3 2018 (pagedServer_serves 1 marchDebits (by decide) (by decide))
    (by decide) (by rfl)⟩

theorem wrapInt64_of_range (x : Int) (hlo : -9223372036854775808 ≤ x)
    (hhi : x < 9223372036854775808) : wrapInt64 x = x := by
  unfold wrapInt64
  norm_num
  omega

theorem transactionYearMonth_of_range (host : Host) (timestamp : Int)
    (hlo : -9223372036854 ≤ timestamp) (hhi : timestamp ≤ 9223372036854) :
    transactionYearMonth host timestamp
      = civilYearMonth ((timestamp / 1000 + host.zoneOffset (timestamp / 1000)) / 86400) := by
  unfold transactionYearMonth
  have hsec : wrapInt64 (timestamp * 1000000) / 1000000000 = timestamp / 1000 := by
    rw [wrapInt64_of_range _ (by omega) (by omega)]
    omega
  simp only [hsec]

/-- C13, as amended: for every timestamp between -9223372036854 and 9223372036854
milliseconds, for which `v.Timestamp*1_000_000` fits in 64 bits, a record is kept
if and only if the calendar month and year, in the local zone of the host, of the
instant timestampMillis milliseconds after the Unix epoch equal the requested month
and year; on a host whose local zone is UTC these are the UTC month and year. -/
theorem inRequestedMonth_iff_local_month (host : Host) (m y : Int)
    (v : UserTransactionDataResponse)
    (hlo : -9223372036854 ≤ v.Timestamp) (hhi : v.Timestamp ≤ 9223372036854) :
    (inRequestedMonth host m y v = true ↔
        civilYearMonth
          ((v.Timestamp / 1000 + host.zoneOffset (v.Timestamp / 1000)) / 86400) = (y, m)) ∧
      ((∀ s, host.zoneOffset s = 0) →
        (inRequestedMonth host m y v = true ↔ utcYearMonth v.Timestamp = (y, m))) := by
  have hiff : inRequestedMonth host m y v = true ↔
      civilYearMonth
        ((v.Timestamp / 1000 + host.zoneOffset (v.Timestamp / 1000)) / 86400) = (y, m) := by
    unfold inRequestedMonth
    rw [transactionYearMonth_of_range host v.Timestamp hlo hhi]
    simp only [Bool.and_eq_true, decide_eq_true_eq]
    constructor
    · intro h
      exact Prod.ext h.2 h.1
    · intro h
      rw [h]
      exact ⟨rfl, rfl⟩
  refine ⟨hiff, ?_⟩
  intro hz
  rw [hiff, hz]
  have hdays : (v.Timestamp / 1000 + 0) / 86400 = v.Timestamp / 86400000 := by omega
  rw [hdays, utcYearMonth]

theorem inRequestedMonth_iff_local_month_witness :
    inRequestedMonth utcHost 3 2018 (sampleRecord 1 1520000000000 "debit" "$10.00") = true ∧
      utcYearMonth 1520000000000 = (2018, 3) :=
  have h := inRequestedMonth_iff_local_month utcHost 3 2018
    (sampleRecord 1 1520000000000 "debit" "$10.00") (by decide) (by decide)
  ⟨by decide!, (h.2 (fun _ => rfl)).1 (by decide!)⟩

theorem inRequestedMonth_iff_local_month_counterexample :
    utcYearMonth 9223372036855 = (2262, 4) ∧
      transactionYearMonth utcHost 9223372036855 = (1677, 9) ∧
      inRequestedMonth utcHost 4 2262 (sampleRecord 1 9223372036855 "debit" "$10.00")
        = false ∧
      (getUserTransaction utcHost
          (pagedServer [singlePage [sampleRecord 1 9223372036855 "debit" "$10.00",
            sampleRecord 2 9223372036855 "debit" "$30.00"]]) 1 1 "debit" "4-2262").2
        = Outcome.returned [-1] ∧
      utcYearMonth 1522526400000 = (2018, 3) ∧
      inRequestedMonth tokyoHost 3 2018 (sampleRecord 1 1522526400000 "debit" "$10.00")
        = false ∧
      inRequestedMonth tokyoHost 4 2018 (sampleRecord 1 1522526400000 "debit" "$10.00")
        = true := by
  refine ⟨by decide!, by decide!, by decide!, by decide!, by decide!, by decide!, by decide!⟩

theorem isDigit_iff (c : Char) : isDigit c = true ↔ 48 ≤ c.toNat ∧ c.toNat ≤ 57 := by
  simp [isDigit]

theorem digitChar_spec (n : Nat) (h : n < 10) :
    isDigit (Nat.digitChar n) = true ∧ digitValue (Nat.digitChar n) = n := by
  interval_cases n <;> exact ⟨by decide, by decide⟩

theorem toDigitsCore_spec :
    ∀ (fuel n : Nat) (ds : List Char), n < fuel →
      (∀ c ∈ Nat.toDigitsCore 10 fuel n ds, isDigit c = true ∨ c ∈ ds) ∧
      List.foldl (fun k c => k * 10 + digitValue c) 0 (Nat.toDigitsCore 10 fuel n ds)
        = List.foldl (fun k c => k * 10 + digitValue c) n ds ∧
      Nat.toDigitsCore 10 fuel n ds ≠ [] := by
  intro fuel
  induction fuel with
  | zero =>
    intro n ds h
    omega
  | succ fuel ih =>
    intro n ds h
    have hd := digitChar_spec (n % 10) (Nat.mod_lt _ (by decide))
    by_cases hz : n / 10 = 0
    · have hn : n % 10 = n := by omega
      simp only [Nat.toDigitsCore, hz, if_true]
      refine ⟨?_, ?_, by simp⟩
      · intro c hc
        rcases List.mem_cons.1 hc with rfl | hc
        · exact Or.inl hd.1
        · exact Or.inr hc
      · rw [List.foldl_cons, hd.2, hn]
        simp
    · simp only [Nat.toDigitsCore, hz, if_false]
      have hlt : n / 10 < fuel := by omega
      obtain ⟨h1, h2, h3⟩ := ih (n / 10) (Nat.digitChar (n % 10) :: ds) hlt
      refine ⟨?_, ?_, h3⟩
      · intro c hc
        rcases h1 c hc with h | h
        · exact Or.inl h
        · rcases List.mem_cons.1 h with rfl | h
          · exact Or.inl hd.1
          · exact Or.inr h
      · rw [h2, List.foldl_cons, hd.2]
        congr 1
        omega

theorem toDigits_spec (n : Nat) :
    (∀ c ∈ Nat.toDigits 10 n, isDigit c = true) ∧ decimalValue (Nat.toDigits 10 n) = n ∧
      Nat.toDigits 10 n ≠ [] := by
  obtain ⟨h1, h2, h3⟩ := toDigitsCore_spec (n + 1) n [] (Nat.lt_succ_self n)
  refine ⟨?_, ?_, h3⟩
  · intro c hc
    rcases h1 c hc with h | h
    · exact h
    · simp at h
  · unfold decimalValue
    rw [Nat.toDigits, h2]
    rfl

theorem toString_data (n : Nat) : (toString n).data = Nat.toDigits 10 n := rfl

theorem atoi_of_digits (s : String) (hd : ∀ c ∈ s.data, isDigit c = true) (hne : s.data ≠ [])
    (hlt : decimalValue s.data < 2 ^ 63) : atoi s = some (decimalValue s.data : Int) := by
  have hall : s.data.all isDigit = true := List.all_eq_true.2 hd
  have hemp : s.data.isEmpty = false := by
    cases hs : s.data with
    | nil => exact absurd hs hne
    | cons c cs => rfl
  unfold atoi
  split
  · rename_i r heq
    have h := hd '-' (by rw [heq]; exact List.mem_cons_self _ _)
    exact absurd h (by decide)
  · rename_i r heq
    have h := hd '+' (by rw [heq]; exact List.mem_cons_self _ _)
    exact absurd h (by decide)
  · have hlt2 : decimalValue s.data < 9223372036854775808 := by
      have e : (2 : Nat) ^ 63 = 9223372036854775808 := by norm_num
      rw [e] at hlt
      exact hlt
    simp [hall, hemp, hlt2]

theorem atoi_toString (n : Nat) (h : n < 2 ^ 63) : atoi (toString n) = some (n : Int) := by
  obtain ⟨h1, h2, h3⟩ := toDigits_spec n
  have := atoi_of_digits (toString n) (by rw [toString_data]; exact h1)
    (by rw [toString_data]; exact h3) (by rw [toString_data, h2]; exact h)
  rw [this, toString_data, h2]

theorem splitDashAux_no_dash :
    ∀ (cs cur : List Char), (∀ c ∈ cs, c ≠ '-') →
      splitDashAux cs cur = [String.mk (cur.reverse ++ cs)] := by
  intro cs
  induction cs with
  | nil =>
    intro cur _
    simp [splitDashAux]
  | cons c cs ih =>
    intro cur h
    have hc : c ≠ '-' := h c (List.mem_cons_self _ _)
    rw [splitDashAux, if_neg hc, ih (c :: cur) (fun d hd => h d (List.mem_cons_of_mem _ hd))]
    simp

theorem splitDashAux_dash :
    ∀ (cs cur rest : List Char), (∀ c ∈ cs, c ≠ '-') →
      splitDashAux (cs ++ '-' :: rest) cur
        = String.mk (cur.reverse ++ cs) :: splitDashAux rest [] := by
  intro cs
  induction cs with
  | nil =>
    intro cur rest _
    simp [splitDashAux]
  | cons c cs ih =>
    intro cur rest h
    have hc : c ≠ '-' := h c (List.mem_cons_self _ _)
    rw [List.cons_append, splitDashAux, if_neg hc,
      ih (c :: cur) rest (fun d hd => h d (List.mem_cons_of_mem _ hd))]
    simp

theorem ne_dash_of_isDigit (c : Char) (h : isDigit c = true) : c ≠ '-' := by
  intro hc
  rw [hc] at h
  exact absurd h (by decide)

/-- C15: for every month `m` from 1 to 12 and every year `y` from 1000 to 9999,
`convertMonthYearToInt` applied to the decimal rendering of `m`, a dash and the
decimal rendering of `y` returns exactly `(m, y)` and does not fail. -/
theorem convertMonthYearToInt_rendered (m y : Nat) (hm1 : 1 ≤ m) (hm2 : m ≤ 12)
    (hy1 : 1000 ≤ y) (hy2 : y ≤ 9999) :
    convertMonthYearToInt (toString m ++ "-" ++ toString y)
      = Except.ok ((m : Int), (y : Int)) := by
  have _hbounds := And.intro hm1 hy1
  obtain ⟨hmd, -, -⟩ := toDigits_spec m
  obtain ⟨hyd, -, -⟩ := toDigits_spec y
  have hdata : (toString m ++ "-" ++ toString y).data
      = Nat.toDigits 10 m ++ '-' :: Nat.toDigits 10 y := by
    simp only [String.data_append, toString_data, List.append_assoc]
    rfl
  have hsplit : splitDash (toString m ++ "-" ++ toString y) = [toString m, toString y] := by
    unfold splitDash
    rw [hdata, splitDashAux_dash _ _ _ (fun c hc => ne_dash_of_isDigit c (hmd c hc)),
      splitDashAux_no_dash _ _ (fun c hc => ne_dash_of_isDigit c (hyd c hc))]
    rfl
  have hpow : (10000 : Nat) < 2 ^ 63 := by decide
  simp only [convertMonthYearToInt, hsplit, atoi_toString m (by omega),
    atoi_toString y (by omega)]

theorem convertMonthYearToInt_rendered_witness :
    toString 3 ++ "-" ++ toString 2018 = "3-2018" ∧
      convertMonthYearToInt "3-2018" = Except.ok (3, 2018) :=
  ⟨by decide, convertMonthYearToInt_rendered 3 2018 (by decide) (by decide) (by decide)
    (by decide)⟩

theorem isDigit_facts (c : Char) (h : isDigit c = true) :
    c ≠ '_' ∧ c ≠ '.' ∧ c ≠ ',' ∧ c ≠ '+' ∧ c ≠ '-' ∧ lowerASCII c = c := by
  have hc := (isDigit_iff c).1 h
  have hne : ∀ d : Char, ¬ (48 ≤ d.toNat ∧ d.toNat ≤ 57) → c ≠ d := by
    intro d hd hcd
    rw [hcd] at hc
    exact hd hc
  refine ⟨hne _ (by decide), hne _ (by decide), hne _ (by decide), hne _ (by decide),
    hne _ (by decide), ?_⟩
  unfold lowerASCII
  rw [if_neg]
  simp only [Bool.and_eq_true, decide_eq_true_eq]
  omega

theorem lowerASCII_dot : lowerASCII '.' = '.' := by decide

theorem readMantissa_digits :
    ∀ (ds : List Char) (st : Mantissa) (rest : List Char),
      (∀ c ∈ ds, isDigit c = true) →
      readMantissa false (ds ++ rest) st
        = readMantissa false rest
            { sawdot := st.sawdot
              sawdigits := st.sawdigits || !ds.isEmpty
              underscores := st.underscores
              value := ds.foldl (fun n c => n * 10 + digitValue c) st.value
              fraction := if st.sawdot then st.fraction + ds.length else st.fraction } := by
  intro ds
  induction ds with
  | nil =>
    intro st rest _
    cases st
    simp
  | cons c cs ih =>
    intro st rest h
    have hc := h c (List.mem_cons_self _ _)
    obtain ⟨h1, h2, -, -, -, -⟩ := isDigit_facts c hc
    rw [List.cons_append, readMantissa, if_neg h1, if_neg h2]
    simp only [hc, Bool.true_or, if_true, Bool.false_eq_true, if_false]
    rw [ih _ rest (fun d hd => h d (List.mem_cons_of_mem _ hd))]
    congr 1
    cases hs : st.sawdot <;> simp [hs]
    omega

theorem parseSpecial_of_digit (d : Char) (rest : List Char) (hd : isDigit d = true) :
    parseSpecial (d :: rest) = none := by
  obtain ⟨-, -, -, hplus, hminus, hlow⟩ := isDigit_facts d hd
  have hi : d ≠ 'i' := by
    intro h
    rw [h] at hd
    exact absurd hd (by decide)
  have hn : d ≠ 'n' := by
    intro h
    rw [h] at hd
    exact absurd hd (by decide)
  unfold parseSpecial
  split
  · rename_i r heq
    simp only [List.cons.injEq] at heq
    exact absurd heq.1 hplus
  · rename_i r heq
    simp only [List.cons.injEq] at heq
    exact absurd heq.1 hminus
  · have e1 : "inf".data = ['i', 'n', 'f'] := rfl
    have e2 : "infinity".data = ['i', 'n', 'f', 'i', 'n', 'i', 't', 'y'] := rfl
    have e3 : "nan".data = ['n', 'a', 'n'] := rfl
    simp [e1, e2, e3, hlow, hi, hn]

theorem round64_cases (neg : Bool) (num den : Nat) :
    round64 neg num den = Float64.inf neg ∨ ∃ a b, round64 neg num den = Float64.fin a b := by
  unfold round64
  split
  · exact Or.inr ⟨_, _, rfl⟩
  · simp only []
    split
    · split
      · exact Or.inl rfl
      · exact Or.inr ⟨_, _, rfl⟩
    · exact Or.inr ⟨_, _, rfl⟩

theorem signMatch_of_digit (d : Char) (rest : List Char) (hd : isDigit d = true) :
    parseSpecial.match_1 (fun _ => Bool × List Char) (d :: rest) (fun r => (false, r))
      (fun r => (true, r)) (fun r => (false, r)) = (false, d :: rest) := by
  obtain ⟨-, -, -, hplus, hminus, -⟩ := isDigit_facts d hd
  split
  · rename_i r heq
    simp only [List.cons.injEq] at heq
    exact absurd heq.1 hplus
  · rename_i r heq
    simp only [List.cons.injEq] at heq
    exact absurd heq.1 hminus
  · rfl

theorem baseMatch_of_decimal (d : Char) (rest : List Char)
    (hrest : ∀ c ∈ rest, isDigit c = true ∨ c = '.') :
    parseNumber.match_1 (fun _ => Bool × List Char) (d :: rest)
      (fun x c r => if lowerASCII x = 'x' then (true, c :: r) else (false, d :: rest))
      (fun r => (false, r)) = (false, d :: rest) := by
  split
  · rename_i x c r heq
    simp only [List.cons.injEq] at heq
    have hx : x ∈ rest := by
      rw [heq.2]
      exact List.mem_cons_self _ _
    have hne : lowerASCII x ≠ 'x' := by
      rcases hrest x hx with h | h
      · rw [(isDigit_facts x h).2.2.2.2.2]
        intro hxx
        rw [hxx] at h
        exact absurd h (by decide)
      · rw [h]
        decide
    rw [if_neg hne]
  · rfl

theorem parseNumber_of_mantissa (d : Char) (rest : List Char) (hd : isDigit d = true)
    (hrest : ∀ c ∈ rest, isDigit c = true ∨ c = '.') (m : Mantissa)
    (hm : readMantissa false (d :: rest) {} = (m, []))
    (hsaw : m.sawdigits = true) (hus : m.underscores = false) :
    parseNumber (d :: rest) = floatOfParts false false m false 0 := by
  unfold parseNumber
  simp only [signMatch_of_digit d rest hd, baseMatch_of_decimal d rest hrest, hm, hsaw, hus]
  simp

theorem floatOfParts_plain (m : Mantissa)
    (hfit : round64 false m.value (10 ^ m.fraction) ≠ Float64.inf false) :
    floatOfParts false false m false 0 = some (round64 false m.value (10 ^ m.fraction)) := by
  unfold floatOfParts
  simp only [Bool.false_eq_true, if_false, pow_zero, Nat.mul_one]
  rcases round64_cases false m.value (10 ^ m.fraction) with h | ⟨a, b, h⟩
  · exact absurd h hfit
  · rw [h]

theorem readMantissa_numeral (ds fp : List Char) (hds : ∀ c ∈ ds, isDigit c = true)
    (hne : ds ≠ []) (hfp : ∀ c ∈ fp, isDigit c = true) :
    readMantissa false (ds ++ '.' :: fp) {}
        = ({ sawdot := true, sawdigits := true, underscores := false,
             value := decimalValue (ds ++ fp), fraction := fp.length }, []) ∧
      readMantissa false ds {}
        = ({ sawdot := false, sawdigits := true, underscores := false,
             value := decimalValue ds, fraction := 0 }, []) := by
  have hemp : ds.isEmpty = false := by
    cases ds with
    | nil => exact absurd rfl hne
    | cons c cs => rfl
  refine ⟨?_, ?_⟩
  · rw [readMantissa_digits ds {} ('.' :: fp) hds, readMantissa,
      if_neg (by decide : ¬ ('.' : Char) = '_'), if_pos rfl]
    simp only [Bool.false_eq_true, if_false]
    have hfp2 : fp = fp ++ [] := by simp
    rw [hfp2, readMantissa_digits fp _ [] hfp, readMantissa]
    simp [hemp, decimalValue, List.foldl_append]
  · have hds2 : ds = ds ++ [] := by simp
    rw [hds2, readMantissa_digits ds {} [] hds, readMantissa]
    simp [hemp, decimalValue]

theorem parseFloat_numeral (ds fp : List Char) (hds : ∀ c ∈ ds, isDigit c = true)
    (hne : ds ≠ []) (hfp : ∀ c ∈ fp, isDigit c = true) :
    (round64 false (decimalValue (ds ++ fp)) (10 ^ fp.length) ≠ Float64.inf false →
        parseFloat (ds ++ '.' :: fp)
          = some (round64 false (decimalValue (ds ++ fp)) (10 ^ fp.length))) ∧
      (round64 false (decimalValue ds) 1 ≠ Float64.inf false →
        parseFloat ds = some (round64 false (decimalValue ds) 1)) := by
  obtain ⟨hm1, hm2⟩ := readMantissa_numeral ds fp hds hne hfp
  cases ds with
  | nil => exact absurd rfl hne
  | cons d ds1 =>
    have hd : isDigit d = true := hds d (List.mem_cons_self _ _)
    refine ⟨?_, ?_⟩
    · intro hfit
      have hrest : ∀ c ∈ ds1 ++ '.' :: fp, isDigit c = true ∨ c = '.' := by
        intro c hc
        rcases List.mem_append.1 hc with h | h
        · exact Or.inl (hds c (List.mem_cons_of_mem _ h))
        · rcases List.mem_cons.1 h with h | h
          · exact Or.inr h
          · exact Or.inl (hfp c h)
      unfold parseFloat
      rw [List.cons_append, parseSpecial_of_digit d _ hd,
        parseNumber_of_mantissa d _ hd hrest _ hm1 rfl rfl]
      exact floatOfParts_plain _ hfit
    · intro hfit
      have hrest : ∀ c ∈ ds1, isDigit c = true ∨ c = '.' :=
        fun c hc => Or.inl (hds c (List.mem_cons_of_mem _ hc))
      unfold parseFloat
      rw [parseSpecial_of_digit d _ hd, parseNumber_of_mantissa d _ hd hrest _ hm2 rfl rfl]
      have h := floatOfParts_plain
        { sawdot := false, sawdigits := true, underscores := false,
          value := decimalValue (d :: ds1), fraction := 0 }
        (by simpa using hfit)
      simpa using h

theorem filter_comma_digits (fp : List Char) (hfp : ∀ c ∈ fp, isDigit c = true) :
    fp.filter (fun c => c ≠ ',') = fp := by
  apply List.filter_eq_self.2
  intro c hc
  simpa using (isDigit_facts c (hfp c hc)).2.2.1

/-- C14, as amended: for every amount made of one leading single-byte character
other than a comma, followed by a decimal numeral (digits, with commas allowed among
them, then optionally a point and digits) whose value does not overflow `float64`,
`convertAmountToFloat` succeeds and returns the `float64` nearest to the value of
the numeral with every comma removed. For every amount, when nothing is left after
removing the commas (the empty string, or commas only) it fails with a slice-bounds
panic, and when the text after the first character is rejected by
`strconv.ParseFloat`, or the first character takes several bytes, it fails with the
parse error. -/
theorem convertAmountToFloat_numeral (c : Char) (intPart fracPart : List Char)
    (hc : c.toNat < 128) (hcomma : c ≠ ',')
    (hint : ∀ d ∈ intPart, isDigit d = true ∨ d = ',')
    (hsome : ∃ d ∈ intPart, isDigit d = true)
    (hfrac : ∀ d ∈ fracPart, isDigit d = true) :
    (round64 false (decimalValue (intPart.filter (fun d => d ≠ ',') ++ fracPart))
          (10 ^ fracPart.length) ≠ Float64.inf false →
        convertAmountToFloat (String.mk (c :: intPart ++ '.' :: fracPart))
          = Except.ok (round64 false
              (decimalValue (intPart.filter (fun d => d ≠ ',') ++ fracPart))
              (10 ^ fracPart.length))) ∧
      (round64 false (decimalValue (intPart.filter (fun d => d ≠ ','))) 1
          ≠ Float64.inf false →
        convertAmountToFloat (String.mk (c :: intPart))
          = Except.ok (round64 false (decimalValue (intPart.filter (fun d => d ≠ ','))) 1)) ∧
      (∀ amount : String, amount.data.filter (fun d => d ≠ ',') = [] →
        convertAmountToFloat amount = Except.error Fault.outOfRange) ∧
      (∀ (amount : String) (first : Char) (rest : List Char),
        amount.data.filter (fun d => d ≠ ',') = first :: rest →
        128 ≤ first.toNat ∨ parseFloat rest = none →
        convertAmountToFloat amount
          = Except.error (Fault.parseFloatError (String.mk rest))) := by
  have hds : ∀ d ∈ intPart.filter (fun d => d ≠ ','), isDigit d = true := by
    intro d hd
    rw [List.mem_filter] at hd
    rcases hint d hd.1 with h | h
    · exact h
    · simp [h] at hd
  have hne : intPart.filter (fun d => d ≠ ',') ≠ [] := by
    obtain ⟨d, hd, hdig⟩ := hsome
    intro h
    have hmem : d ∈ intPart.filter (fun d => d ≠ ',') := by
      rw [List.mem_filter]
      exact ⟨hd, by simpa using (isDigit_facts d hdig).2.2.1⟩
    rw [h] at hmem
    simp at hmem
  obtain ⟨hp1, hp2⟩ := parseFloat_numeral _ fracPart hds hne hfrac
  have hfilter1 : (String.mk (c :: intPart ++ '.' :: fracPart)).data.filter (fun d => d ≠ ',')
      = c :: (intPart.filter (fun d => d ≠ ',') ++ '.' :: fracPart) := by
    have hff := filter_comma_digits fracPart hfrac
    simp only [List.filter_cons, List.filter_append, hcomma, ne_eq, not_false_eq_true,
      decide_True, if_true, List.cons_append]
    simp only [ne_eq] at hff
    rw [hff]
    simp
  have hfilter2 : (String.mk (c :: intPart)).data.filter (fun d => d ≠ ',')
      = c :: intPart.filter (fun d => d ≠ ',') := by
    simp [List.filter_cons, hcomma]
  refine ⟨?_, ?_, ?_, ?_⟩
  · intro hfit
    unfold convertAmountToFloat
    rw [hfilter1]
    simp only [hc, if_true, hp1 hfit]
  · intro hfit
    unfold convertAmountToFloat
    rw [hfilter2]
    simp only [hc, if_true, hp2 hfit]
  · intro amount h
    unfold convertAmountToFloat
    rw [h]
  · intro amount first rest h hbad
    unfold convertAmountToFloat
    rw [h]
    rcases hbad with hb | hb
    · simp only [not_lt.2 hb, if_false]
    · simp only [hb]
      split <;> rfl

theorem convertAmountToFloat_numeral_witness :
    convertAmountToFloat "$1,234.56"
        = Except.ok (round64 false 123456 100) ∧
      round64 false 123456 100 = Float64.fin 5429652300748554 (-42) :=
  ⟨(convertAmountToFloat_numeral '$' ['1', ',', '2', '3', '4'] ['5', '6'] (by decide)
      (by decide) (by decide) ⟨'1', by decide, by decide⟩ (by decide)).1 (by decide!),
    by decide!⟩

theorem convertAmountToFloat_numeral_counterexample :
    convertAmountToFloat "€1,234.56" = Except.error (Fault.parseFloatError "1234.56") ∧
      convertAmountToFloat "$Inf" = Except.ok (Float64.inf false) ∧
      convertAmountToFloat "$NaN" = Except.ok Float64.nan ∧
      convertAmountToFloat "" = Except.error Fault.outOfRange ∧
      convertAmountToFloat ",,," = Except.error Fault.outOfRange := by
  refine ⟨by rfl, by rfl, by rfl, by rfl, by rfl⟩

theorem gt_iff_toRat (a b : Float64) (ha : a.isFinite = true) (hb : b.isFinite = true) :
    Float64.gt a b = true ↔ b.toRat < a.toRat := by
  cases a with
  | nan => simp [Float64.isFinite] at ha
  | inf _ => simp [Float64.isFinite] at ha
  | fin m1 e1 =>
    cases b with
    | nan => simp [Float64.isFinite] at hb
    | inf _ => simp [Float64.isFinite] at hb
    | fin m2 e2 =>
      simp only [Float64.gt, decide_eq_true_eq, Float64.toRat]
      have h1 : e1 = min e1 e2 + ((e1 - min e1 e2).toNat : Int) := by
        have := min_le_left e1 e2
        omega
      have h2 : e2 = min e1 e2 + ((e2 - min e1 e2).toNat : Int) := by
        have := min_le_right e1 e2
        omega
      have hpos : (0 : ℚ) < (2 : ℚ) ^ (min e1 e2) := zpow_pos (by norm_num) _
      have r1 : (m1 : ℚ) * (2 : ℚ) ^ e1
          = ((m1 * 2 ^ (e1 - min e1 e2).toNat : Int) : ℚ) * (2 : ℚ) ^ (min e1 e2) := by
        conv_lhs => rw [h1]
        rw [zpow_add₀ (by norm_num : (2 : ℚ) ≠ 0), zpow_natCast]
        push_cast
        ring
      have r2 : (m2 : ℚ) * (2 : ℚ) ^ e2
          = ((m2 * 2 ^ (e2 - min e1 e2).toNat : Int) : ℚ) * (2 : ℚ) ^ (min e1 e2) := by
        conv_lhs => rw [h2]
        rw [zpow_add₀ (by norm_num : (2 : ℚ) ≠ 0), zpow_natCast]
        push_cast
        ring
      rw [r1, r2, mul_lt_mul_right hpos, Int.cast_lt]

theorem length_mul_le_sum (f : UserTransactionDataResponse → ℚ) (a : ℚ) :
    ∀ l : List UserTransactionDataResponse, (∀ w ∈ l, a ≤ f w) →
      a * (l.length : ℚ) ≤ (l.map f).sum := by
  intro l
  induction l with
  | nil =>
    intro _
    simp
  | cons v vs ih =>
    intro h
    have h1 := h v (List.mem_cons_self _ _)
    have h2 := ih (fun w hw => h w (List.mem_cons_of_mem _ hw))
    simp only [List.length_cons, List.map_cons, List.sum_cons]
    push_cast
    linarith

theorem le_exactMean (l : List UserTransactionDataResponse) (v : UserTransactionDataResponse)
    (hne : l ≠ []) (hmin : ∀ w ∈ l, exactAmount v ≤ exactAmount w) :
    exactAmount v ≤ exactMean l := by
  unfold exactMean
  have hpos : (0 : ℚ) < (l.length : ℚ) := by
    have : 0 < l.length := List.length_pos.2 hne
    exact_mod_cast this
  rw [le_div_iff₀ hpos]
  exact length_mul_le_sum exactAmount _ l hmin

theorem exists_min_exactAmount :
    ∀ l : List UserTransactionDataResponse, l ≠ [] →
      ∃ v ∈ l, ∀ w ∈ l, exactAmount v ≤ exactAmount w := by
  intro l
  induction l with
  | nil =>
    intro h
    exact absurd rfl h
  | cons a as ih =>
    intro _
    by_cases has : as = []
    · subst has
      exact ⟨a, List.mem_cons_self _ _, fun w hw => by
        simp only [List.mem_singleton] at hw
        rw [hw]⟩
    · obtain ⟨v, hv, hmin⟩ := ih has
      by_cases hle : exactAmount a ≤ exactAmount v
      · refine ⟨a, List.mem_cons_self _ _, ?_⟩
        intro w hw
        rcases List.mem_cons.1 hw with h | h
        · rw [h]
        · exact le_trans hle (hmin w h)
      · refine ⟨v, List.mem_cons_of_mem _ hv, ?_⟩
        intro w hw
        rcases List.mem_cons.1 hw with h | h
        · rw [h]
          exact le_of_lt (not_le.1 hle)
        · exact hmin w h

/-- C17, as amended: when the requested type is debit, the amounts of the month's
debit records parse to finite values and the `float64` average that the code
computes is finite and not below the exact mean of these values (as when the sum
and the quotient incur no rounding), a debit record whose amount is the minimum
among the debit records of the requested month is never selected; consequently, if
the month has exactly one debit record, or all its debit records have the same
amount, `getUserTransaction` returns `[-1]`, and otherwise the number of returned
ids is strictly smaller than the number of debit records of the month. -/
theorem getUserTransaction_debit_minimum (host : Host) (srv : Server) (uid : Int)
    (pages : List UserTransactionResponse) (hs : ServesPages srv uid pages)
    (fuel : Nat) (hfuel : pages.length ≤ fuel) (txnType monthYear : String) (m y : Int)
    (hdebit : host.toLower txnType = debit)
    (hmy : convertMonthYearToInt monthYear = Except.ok (m, y))
    (hd : AmountsParse host debit m y (allRecords pages))
    (hfin : ∀ v ∈ monthRecordsOfType host debit m y (allRecords pages),
      (amountOf v).isFinite = true)
    (havg : (debitAverage host m y (allRecords pages)).isFinite = true)
    (hmean : exactMean (monthRecordsOfType host debit m y (allRecords pages))
      ≤ (debitAverage host m y (allRecords pages)).toRat) :
    (∀ v ∈ monthRecordsOfType host debit m y (allRecords pages),
        (∀ w ∈ monthRecordsOfType host debit m y (allRecords pages),
          exactAmount v ≤ exactAmount w) →
        v ∉ aboveAverage host debit m y (allRecords pages)) ∧
      ((monthRecordsOfType host debit m y (allRecords pages)).length = 1 ∨
          (∀ v ∈ monthRecordsOfType host debit m y (allRecords pages),
            ∀ w ∈ monthRecordsOfType host debit m y (allRecords pages),
              exactAmount v = exactAmount w) →
        (getUserTransaction host srv fuel uid txnType monthYear).2
          = Outcome.returned [-1]) ∧
      (¬ ((monthRecordsOfType host debit m y (allRecords pages)).length = 1 ∨
          (∀ v ∈ monthRecordsOfType host debit m y (allRecords pages),
            ∀ w ∈ monthRecordsOfType host debit m y (allRecords pages),
              exactAmount v = exactAmount w)) →
        ∃ l, (getUserTransaction host srv fuel uid txnType monthYear).2
            = Outcome.returned l ∧
          l.length < (monthRecordsOfType host debit m y (allRecords pages)).length) := by
  have hout : (getUserTransaction host srv fuel uid txnType monthYear).2
      = Outcome.returned
          (if aboveAverage host debit m y (allRecords pages) = [] then [-1]
           else (aboveAverage host debit m y (allRecords pages)).map (fun v => v.Id)) := by
    rw [getUserTransaction_serves host srv uid pages hs fuel hfuel txnType monthYear m y
      (Or.inr hdebit) hmy, hdebit, analyze_of_parse host _ m y _ hd hd]
  have hnot : ∀ v ∈ monthRecordsOfType host debit m y (allRecords pages),
      (∀ w ∈ monthRecordsOfType host debit m y (allRecords pages),
        exactAmount v ≤ exactAmount w) →
      v ∉ aboveAverage host debit m y (allRecords pages) := by
    intro v hv hmin hsel
    have hgt : Float64.gt (amountOf v) (debitAverage host m y (allRecords pages)) = true := by
      unfold aboveAverage at hsel
      exact (List.mem_filter.1 hsel).2
    rw [gt_iff_toRat _ _ (hfin v hv) havg] at hgt
    have hne : monthRecordsOfType host debit m y (allRecords pages) ≠ [] :=
      List.ne_nil_of_mem hv
    have hle := le_exactMean _ v hne hmin
    unfold exactAmount at hle
    linarith
  refine ⟨hnot, ?_, ?_⟩
  · intro hcase
    have hall : ∀ v ∈ monthRecordsOfType host debit m y (allRecords pages),
        ∀ w ∈ monthRecordsOfType host debit m y (allRecords pages),
          exactAmount v ≤ exactAmount w := by
      rcases hcase with h1 | h2
      · intro v hv w hw
        obtain ⟨a, ha⟩ := List.length_eq_one.1 h1
        rw [ha] at hv hw
        simp only [List.mem_singleton] at hv hw
        rw [hv, hw]
      · intro v hv w hw
        exact le_of_eq (h2 v hv w hw)
    have hempty : aboveAverage host debit m y (allRecords pages) = [] := by
      apply List.eq_nil_iff_forall_not_mem.2
      intro v hv
      have hv2 : v ∈ monthRecordsOfType host debit m y (allRecords pages) := by
        unfold aboveAverage at hv
        exact (List.mem_filter.1 hv).1
      exact hnot v hv2 (hall v hv2) hv
    rw [hout, if_pos hempty]
  · intro hcase
    have hne : monthRecordsOfType host debit m y (allRecords pages) ≠ [] := by
      intro h
      apply hcase
      right
      intro v hv
      rw [h] at hv
      simp at hv
    have hlen2 : 2 ≤ (monthRecordsOfType host debit m y (allRecords pages)).length := by
      have h0 : 0 < (monthRecordsOfType host debit m y (allRecords pages)).length :=
        List.length_pos.2 hne
      have h1 : (monthRecordsOfType host debit m y (allRecords pages)).length ≠ 1 :=
        fun h => hcase (Or.inl h)
      omega
    obtain ⟨v, hv, hmin⟩ := exists_min_exactAmount _ hne
    have hvnot := hnot v hv hmin
    have hlt : (aboveAverage host debit m y (allRecords pages)).length
        < (monthRecordsOfType host debit m y (allRecords pages)).length := by
      unfold aboveAverage
      apply List.length_filter_lt_length_iff_exists.2
      refine ⟨v, hv, ?_⟩
      intro hg
      apply hvnot
      unfold aboveAverage
      exact List.mem_filter.2 ⟨hv, hg⟩
    refine ⟨_, hout, ?_⟩
    by_cases hempty : aboveAverage host debit m y (allRecords pages) = []
    · rw [if_pos hempty]
      simpa using hlen2
    · rw [if_neg hempty, List.length_map]
      exact hlt

theorem marchDebits_exact :
    monthRecordsOfType utcHost debit 3 2018 (allRecords marchDebits)
        = [sampleRecord 1 1520000000000 "debit" "$10.00",
           sampleRecord 2 1520000000000 "debit" "$20.00",
           sampleRecord 3 1522000000000 "debit" "$30.00"] ∧
      exactAmount (sampleRecord 1 1520000000000 "debit" "$10.00") = 10 ∧
      exactAmount (sampleRecord 2 1520000000000 "debit" "$20.00") = 20 ∧
      exactAmount (sampleRecord 3 1522000000000 "debit" "$30.00") = 30 ∧
      (debitAverage utcHost 3 2018 (allRecords marchDebits)).toRat = 20 := by
  have h1 : amountOf (sampleRecord 1 1520000000000 "debit" "$10.00")
      = Float64.fin 5629499534213120 (-49) := by decide!
  have h2 : amountOf (sampleRecord 2 1520000000000 "debit" "$20.00")
      = Float64.fin 5629499534213120 (-48) := by decide!
  have h3 : amountOf (sampleRecord 3 1522000000000 "debit" "$30.00")
      = Float64.fin 8444249301319680 (-48) := by decide!
  have ha : debitAverage utcHost 3 2018 (allRecords marchDebits)
      = Float64.fin 5629499534213120 (-48) := by decide!
  refine ⟨by decide!, ?_, ?_, ?_, ?_⟩
  · rw [exactAmount, h1, Float64.toRat]
    norm_num
  · rw [exactAmount, h2, Float64.toRat]
    norm_num
  · rw [exactAmount, h3, Float64.toRat]
    norm_num
  · rw [ha, Float64.toRat]
    norm_num

theorem getUserTransaction_debit_minimum_witness :
    (getUserTransaction utcHost (pagedServer marchDebits) 1 1 "debit" "3-2018").2
        = Outcome.returned [3] ∧
      ∃ l, (getUserTransaction utcHost (pagedServer marchDebits) 1 1 "debit" "3-2018").2
          = Outcome.returned l ∧
        l.length < (monthRecordsOfType utcHost debit 3 2018 (allRecords marchDebits)).length :=
  ⟨by decide!,
    (getUserTransaction_debit_minimum utcHost (pagedServer marchDebits) 1 marchDebits
      (pagedServer_serves 1 marchDebits (by decide) (by decide)) 1 (by decide)
      "debit" "3-2018" 3 2018 (by decide) (by rfl)
      (by unfold AmountsParse; decide!)
      (by decide!)
      (by decide!)
      (by
        obtain ⟨hl, h1, h2, h3, ha⟩ := marchDebits_exact
        rw [ha, hl]
        simp only [exactMean, List.map_cons, List.map_nil, List.sum_cons, List.sum_nil, h1, h2,
          h3, List.length_cons, List.length_nil]
        norm_num)).2.2
      (by
        obtain ⟨hl, h1, h2, h3, -⟩ := marchDebits_exact
        rw [hl]
        intro hcase
        rcases hcase with h | h
        · simp at h
        · have := h _ (List.mem_cons_self _ _) _
            (List.mem_cons_of_mem _ (List.mem_cons_self _ _))
          rw [h1, h2] at this
          norm_num at this)⟩

theorem getUserTransaction_debit_minimum_counterexample :
    (monthRecordsOfType utcHost debit 3 2018 (allRecords marchEqualDebits)).map
        (fun v => v.Amount) = ["$0.70", "$0.70", "$0.70"] ∧
      (getUserTransaction utcHost (pagedServer marchEqualDebits) 1 1 "debit" "3-2018").2
        = Outcome.returned [1, 2, 3] ∧
      Float64.gt (amountOf (sampleRecord 1 1520000000000 "debit" "$0.70"))
        (debitAverage utcHost 3 2018 (allRecords marchEqualDebits)) = true := by
  refine ⟨by decide!, by decide!, by decide!⟩

end XeHackerRank
